import Mathlib

/-!
Verification of the oggify resolution-and-delivery pipeline (src/main.rs).

The program reads catalog references from stdin, expands container
references (playlist, album, show) into an ordered, deduplicated work
list of leaf items (tracks and episodes) held in an insertion-ordered
map, and then processes each item in order: metadata fetch,
availability fallback, artist resolution, format selection, key
negotiation, stream fetch, decryption, and delivery either to a file
or to a helper process.

The embedding below models the session and filesystem boundary as an
environment of response functions, and each pipeline step as a pure
function that returns the list of observable effects it performs
(fetches, key requests, stream reads, writes, helper interaction, log
lines) together with the item's terminal outcome.
-/

namespace Oggify

/-- The audio encodings of the catalog's file table
(librespot's FileFormat enum). -/
inductive FileFormat where
  | OGG_VORBIS_96
  | OGG_VORBIS_160
  | OGG_VORBIS_320
  | MP3_256
  | MP3_320
  | MP3_160
  | MP3_96
  | MP3_160_ENC
  | MP4_128_DUAL
  | OTHER3
  | AAC_160
  | AAC_320
  | MP4_128
  | OTHER5
deriving DecidableEq

/-- Track metadata as fetched from the catalog (librespot Track). -/
structure TrackMeta where
  id : Nat
  name : String
  available : Bool
  files : List (FileFormat × Nat)
  artists : List Nat
  album : Nat
  alternatives : List Nat
deriving DecidableEq

/-- Episode metadata as fetched from the catalog (librespot Episode). -/
structure EpisodeMeta where
  id : Nat
  name : String
  available : Bool
  files : List (FileFormat × Nat)
  showId : Nat
deriving DecidableEq

/-- Album metadata: its display name and contained track ids. -/
structure AlbumMeta where
  name : String
  tracks : List Nat
deriving DecidableEq

/-- Show metadata: name, publisher and the episode ids as the catalog
returns them (reverse chronological order). -/
structure ShowMeta where
  name : String
  publisher : String
  episodes : List Nat
deriving DecidableEq

/-- Playlist metadata: the contained track ids in playlist order. -/
structure PlaylistMeta where
  tracks : List Nat
deriving DecidableEq

/-- An observable step the program performs: catalog requests, audio
key / stream operations, filesystem writes, helper-process
interaction, and log lines. -/
inductive Effect where
  | fetchTrack (id : Nat)
  | fetchEpisode (id : Nat)
  | fetchArtist (id : Nat)
  | fetchAlbum (id : Nat)
  | fetchShow (id : Nat)
  | fetchPlaylist (id : Nat)
  | keyRequest (itemId fileId : Nat)
  | openAudio (fileId : Nat)
  | readStream (fileId : Nat)
  | decrypted (plain : List Nat)
  | writeFile (fname : String) (bytes : List Nat)
  | spawnHelper (path : String) (args : List String)
  | pipeWrite (bytes : List Nat)
  | logInfo (msg : String)
  | logWarn (msg : String)
  | logDebug (msg : String)
deriving DecidableEq

/-- A terminal state of one work item: delivered, skipped because the
output file exists, skipped because the item's own metadata fetch
failed, skipped because the stored kind string is unknown, or a panic
that aborts the whole run. -/
inductive Outcome where
  | delivered
  | skippedExists
  | skippedFetchError
  | unknownKind
  | fatal (msg : String)
deriving DecidableEq

abbrev Trace := List Effect

/-- The external world the program runs against: catalog responses,
audio key / stream / decryption results, the filesystem, helper
process results, and the two black-box string transforms (filename
sanitization and base62 rendering of ids). -/
structure Env where
  trackMeta : Nat → Option TrackMeta
  episodeMeta : Nat → Option EpisodeMeta
  artistName : Nat → Option String
  albumMeta : Nat → Option AlbumMeta
  showMeta : Nat → Option ShowMeta
  playlistMeta : Nat → Option PlaylistMeta
  audioKey : Nat → Nat → Option Nat
  openOk : Nat → Bool
  readStream : Nat → Option (List Nat)
  decrypt : Nat → List Nat → Option (List Nat)
  fileExists : String → Bool
  writeOk : String → List Nat → Bool
  spawnOk : String → List String → Bool
  pipeWriteOk : List Nat → Bool
  waitResult : String → List String → Option Bool
  sanitize : String → String
  toBase62 : Nat → String

/-- The worklist: an insertion-ordered association list from ids to
kind strings, modelling the IndexMap of main.rs. -/
abbrev WorkList := List (Nat × String)

/-- The keys of a worklist in order. -/
def keysW (m : WorkList) : List Nat := m.map Prod.fst

/-- The value stored for a key. -/
def lookupW (m : WorkList) (k : Nat) : Option String :=
  (m.find? (fun p => p.1 = k)).map Prod.snd

/-- IndexMap::insert: an existing key keeps its position and gets the
new value; a new key is appended at the end. -/
def indexInsert (m : WorkList) (k : Nat) (v : String) : WorkList :=
  if k ∈ keysW m then
    m.map (fun p => if p.1 = k then (p.1, v) else p)
  else m ++ [(k, v)]

/-- Insert a (key, value) pair, uncurried. -/
def insOp (m : WorkList) (p : Nat × String) : WorkList :=
  indexInsert m p.1 p.2

/-- The first occurrence of each element, in first-seen order. -/
def firstOcc : List Nat → List Nat
  | [] => []
  | x :: xs => x :: (firstOcc xs).filter (fun y => decide (y ≠ x))

theorem keysW_indexInsert (m : WorkList) (k : Nat) (v : String) :
    keysW (indexInsert m k v) =
      if k ∈ keysW m then keysW m else keysW m ++ [k] := by
  unfold indexInsert
  split
  · simp only [keysW, List.map_map]
    congr 1
    funext p
    by_cases h : p.1 = k <;> simp [h, Function.comp]
  · simp [keysW]

theorem keysW_insOp (m : WorkList) (p : Nat × String) :
    keysW (insOp m p) =
      if p.1 ∈ keysW m then keysW m else keysW m ++ [p.1] :=
  keysW_indexInsert m p.1 p.2

/-- Folding inserts extends the key sequence by the new keys in
first-occurrence order. -/
theorem keysW_foldl (ops : List (Nat × String)) :
    ∀ m : WorkList,
      keysW (ops.foldl insOp m) =
        keysW m ++
          (firstOcc (ops.map Prod.fst)).filter (fun y => decide (y ∉ keysW m)) := by
  induction ops with
  | nil => intro m; simp [firstOcc]
  | cons p ops ih =>
      intro m
      simp only [List.foldl_cons, List.map_cons, firstOcc]
      rw [ih (insOp m p), keysW_insOp]
      by_cases hk : p.1 ∈ keysW m
      · simp only [hk, if_true]
        have hdrop : (decide (p.1 ∉ keysW m)) = false := by simp [hk]
        simp only [List.filter_cons, hdrop]
        congr 1
        rw [List.filter_filter]
        apply List.filter_congr
        intro a _
        by_cases ha : a ∈ keysW m
        · simp [ha]
        · have : a ≠ p.1 := fun h => ha (h ▸ hk)
          simp [ha, this]
      · simp only [hk, if_false]
        have hkeep : (decide (p.1 ∉ keysW m)) = true := by simp [hk]
        simp only [List.filter_cons, hkeep, List.append_assoc, List.singleton_append]
        congr 2
        rw [List.filter_filter]
        apply List.filter_congr
        intro a _
        by_cases ha : a ∈ keysW m
        · simp [ha]
        · by_cases hap : a = p.1 <;> simp [ha, hap]

/-- First-occurrence order from the empty worklist. -/
theorem keysW_foldl_nil (ops : List (Nat × String)) :
    keysW (ops.foldl insOp []) = firstOcc (ops.map Prod.fst) := by
  rw [keysW_foldl ops []]
  simp only [keysW, List.map_nil, List.nil_append]
  apply List.filter_eq_self.mpr
  intro a _
  simp

theorem firstOcc_nodup (l : List Nat) : (firstOcc l).Nodup := by
  induction l with
  | nil => simp [firstOcc]
  | cons x xs ih =>
      simp only [firstOcc, List.nodup_cons]
      constructor
      · intro hmem
        have := (List.mem_filter.mp hmem).2
        simp at this
      · exact ih.filter _

/-- If every stored value is `v`, a worklist is its key list paired
with `v`. -/
theorem eq_keys_pair_of_const (m : WorkList) (v : String)
    (h : ∀ p ∈ m, p.2 = v) : m = (keysW m).map (fun k => (k, v)) := by
  induction m with
  | nil => rfl
  | cons p rest ih =>
      have hp : p.2 = v := h p (List.mem_cons_self p rest)
      have : rest = (keysW rest).map (fun k => (k, v)) :=
        ih (fun q hq => h q (List.mem_cons_of_mem p hq))
      calc p :: rest = (p.1, p.2) :: rest := by rfl
        _ = (p.1, v) :: (keysW rest).map (fun k => (k, v)) := by rw [hp, ← this]
        _ = (keysW (p :: rest)).map (fun k => (k, v)) := by simp [keysW]

theorem indexInsert_values_const (m : WorkList) (k : Nat) (v : String)
    (h : ∀ p ∈ m, p.2 = v) : ∀ p ∈ indexInsert m k v, p.2 = v := by
  intro p hp
  unfold indexInsert at hp
  split at hp
  · obtain ⟨q, hq, rfl⟩ := List.mem_map.mp hp
    by_cases hqk : q.1 = k <;> simp [hqk, h q hq]
  · rcases List.mem_append.mp hp with hq | hq
    · exact h p hq
    · simp at hq; simp [hq]

theorem foldl_insOp_values_const (v : String) (ops : List (Nat × String)) :
    ∀ m : WorkList, (∀ p ∈ m, p.2 = v) → (∀ p ∈ ops, p.2 = v) →
      ∀ p ∈ ops.foldl insOp m, p.2 = v := by
  induction ops with
  | nil => intro m hm _ p hp; exact hm p hp
  | cons q rest ih =>
      intro m hm hops p hp
      have hq : q.2 = v := hops q (List.mem_cons_self q rest)
      refine ih (insOp m q) ?_ (fun r hr => hops r (List.mem_cons_of_mem q hr)) p hp
      show ∀ p ∈ indexInsert m q.1 q.2, p.2 = v
      rw [hq]
      exact indexInsert_values_const m q.1 v hm

/-- Folding constant-value inserts into the empty worklist yields the
first occurrences of the keys, each paired with that value. -/
theorem foldl_const_insert (l : List Nat) (v : String) :
    l.foldl (fun m e => indexInsert m e v) [] =
      (firstOcc l).map (fun k => (k, v)) := by
  have hops : l.foldl (fun m e => indexInsert m e v) [] =
      (l.map (fun e => (e, v))).foldl insOp [] := by
    rw [List.foldl_map]; rfl
  rw [hops]
  have hconst : ∀ p ∈ (l.map (fun e => (e, v))).foldl insOp [], p.2 = v := by
    refine foldl_insOp_values_const v _ [] (by simp) ?_
    intro p hp
    obtain ⟨e, _, rfl⟩ := List.mem_map.mp hp
    rfl
  have hkeys : keysW ((l.map (fun e => (e, v))).foldl insOp []) = firstOcc l := by
    rw [keysW_foldl_nil]
    congr 1
    simp only [List.map_map]
    have hid : (Prod.fst ∘ fun e : Nat => (e, v)) = id := funext fun e => rfl
    rw [hid, List.map_id]
  calc (l.map (fun e => (e, v))).foldl insOp []
      = (keysW ((l.map (fun e => (e, v))).foldl insOp [])).map (fun k => (k, v)) :=
        eq_keys_pair_of_const _ v hconst
    _ = (firstOcc l).map (fun k => (k, v)) := by rw [hkeys]

/-- One parsed reference mutating the worklist (the match on
spotify_type in main.rs): containers are fetched and their leaf ids
inserted; a failed container fetch is a fatal unwrap. A show's episode
ids are first collected into a fresh insertion-ordered map, which is
then reversed and poured into the worklist. -/
def expandRef (env : Env) (ids : WorkList) (kind : String) (sid : Nat) :
    Trace × Except String WorkList :=
  if kind = "playlist" then
    match env.playlistMeta sid with
    | none => ([Effect.fetchPlaylist sid], Except.error "Cannot get playlist metadata")
    | some pl =>
        ([Effect.fetchPlaylist sid],
          Except.ok (pl.tracks.foldl (fun m t => indexInsert m t "track") ids))
  else if kind = "album" then
    match env.albumMeta sid with
    | none => ([Effect.fetchAlbum sid], Except.error "Cannot get album metadata")
    | some al =>
        ([Effect.fetchAlbum sid],
          Except.ok (al.tracks.foldl (fun m t => indexInsert m t "track") ids))
  else if kind = "show" then
    match env.showMeta sid with
    | none => ([Effect.fetchShow sid], Except.error "Cannot get show metadata")
    | some sh =>
        let episodes := sh.episodes.foldl (fun m e => indexInsert m e "episode") []
        ([Effect.fetchShow sid],
          Except.ok (episodes.reverse.foldl (fun m p => indexInsert m p.1 p.2) ids))
  else if kind = "track" then ([], Except.ok (indexInsert ids sid "track"))
  else if kind = "episode" then ([], Except.ok (indexInsert ids sid "episode"))
  else ([Effect.logWarn "Unknown link type."], Except.ok ids)

/-- The whole input phase: expand each reference in order; a failed
container fetch aborts. -/
def expandAll (env : Env) : List (String × Nat) → WorkList → Trace × Except String WorkList
  | [], ids => ([], Except.ok ids)
  | r :: rest, ids =>
      match expandRef env ids r.1 r.2 with
      | (t, Except.error e) => (t, Except.error e)
      | (t, Except.ok ids2) =>
          match expandAll env rest ids2 with
          | (t2, res) => (t ++ t2, res)

/-- The sequence of (id, kind) insertions one reference performs on
the worklist. For a show, the inner insertion-ordered map collapses
duplicate episode ids to their first occurrence before the reversal. -/
def insertOps (env : Env) (kind : String) (sid : Nat) : List (Nat × String) :=
  if kind = "playlist" then
    match env.playlistMeta sid with
    | none => []
    | some pl => pl.tracks.map (fun t => (t, "track"))
  else if kind = "album" then
    match env.albumMeta sid with
    | none => []
    | some al => al.tracks.map (fun t => (t, "track"))
  else if kind = "show" then
    match env.showMeta sid with
    | none => []
    | some sh => (firstOcc sh.episodes).reverse.map (fun e => (e, "episode"))
  else if kind = "track" then [(sid, "track")]
  else if kind = "episode" then [(sid, "episode")]
  else []

/-- The insertion sequence of a whole reference list. -/
def allOps (env : Env) : List (String × Nat) → List (Nat × String)
  | [] => []
  | r :: rest => insertOps env r.1 r.2 ++ allOps env rest

/-- A successful reference expansion is the fold of its insertion
sequence over the incoming worklist. -/
theorem expandRef_ok (env : Env) (ids : WorkList) (kind : String) (sid : Nat)
    (t : Trace) (wl : WorkList)
    (h : expandRef env ids kind sid = (t, Except.ok wl)) :
    wl = (insertOps env kind sid).foldl insOp ids := by
  unfold expandRef at h
  unfold insertOps
  by_cases h1 : kind = "playlist"
  · rw [if_pos h1] at h ⊢
    cases hm : env.playlistMeta sid
    · rw [hm] at h
      simp at h
    · rename_i pl
      rw [hm] at h
      dsimp only at h
      injection h with ha hb
      injection hb with hb
      rw [← hb]
      dsimp only
      rw [List.foldl_map]
      rfl
  · rw [if_neg h1] at h ⊢
    by_cases h2 : kind = "album"
    · rw [if_pos h2] at h ⊢
      cases hm : env.albumMeta sid
      · rw [hm] at h
        simp at h
      · rename_i al
        rw [hm] at h
        dsimp only at h
        injection h with ha hb
        injection hb with hb
        rw [← hb]
        dsimp only
        rw [List.foldl_map]
        rfl
    · rw [if_neg h2] at h ⊢
      by_cases h3 : kind = "show"
      · rw [if_pos h3] at h ⊢
        cases hm : env.showMeta sid
        · rw [hm] at h
          simp at h
        · rename_i sh
          rw [hm] at h
          dsimp only at h
          injection h with ha hb
          injection hb with hb
          rw [← hb]
          dsimp only
          rw [foldl_const_insert, List.map_reverse]
          rfl
      · rw [if_neg h3] at h ⊢
        by_cases h4 : kind = "track"
        · rw [if_pos h4] at h ⊢
          injection h with ha hb
          injection hb with hb
          rw [← hb]
          rfl
        · rw [if_neg h4] at h ⊢
          by_cases h5 : kind = "episode"
          · rw [if_pos h5] at h ⊢
            injection h with ha hb
            injection hb with hb
            rw [← hb]
            rfl
          · rw [if_neg h5] at h ⊢
            injection h with ha hb
            injection hb with hb
            rw [← hb]
            rfl

/-- A successful whole expansion is the fold of the whole insertion
sequence. -/
theorem expandAll_ok (env : Env) (refs : List (String × Nat)) :
    ∀ (ids : WorkList) (t : Trace) (wl : WorkList),
      expandAll env refs ids = (t, Except.ok wl) →
      wl = (allOps env refs).foldl insOp ids := by
  induction refs with
  | nil =>
      intro ids t wl h
      unfold expandAll at h
      injection h with h1 h2
      injection h2 with h2
      rw [← h2]
      rfl
  | cons r rest ih =>
      intro ids t wl h
      unfold expandAll at h
      cases hr : expandRef env ids r.1 r.2 with
      | mk tr res =>
          rw [hr] at h
          cases res with
          | error e => cases h
          | ok ids2 =>
              dsimp only at h
              cases hrest : expandAll env rest ids2 with
              | mk t2 res2 =>
                  rw [hrest] at h
                  dsimp only at h
                  injection h with h1 h2
                  cases res2 with
                  | error e => cases h2
                  | ok wl2 =>
                      injection h2 with h2
                      have hstep := expandRef_ok env ids r.1 r.2 tr ids2 hr
                      have htail := ih ids2 t2 wl2 hrest
                      rw [← h2, htail, hstep,
                        show allOps env (r :: rest) =
                          insertOps env r.1 r.2 ++ allOps env rest from rfl,
                        List.foldl_append]

/-- The five reference kinds of the recognizer's alternation, in the
pattern's order. Their first letters are pairwise distinct, so at any
position at most one alternative can match. -/
def kindWords : List String := ["playlist", "track", "album", "episode", "show"]

/-- The separator class of the pattern. -/
def isSepChar (c : Char) : Bool := c == '/' || c == ':'

/-- Try to match the recognizer's pattern anchored at the front of the
text: a kind word, one separator, then the maximal (greedy) nonempty
alphanumeric run. Mirrors the regex
(playlist|track|album|episode|show)[/:]([a-zA-Z0-9]+) matched at one
start position. -/
def captureAt (s : List Char) : Option (String × String) :=
  match kindWords.findSome? (fun k => if k.toList.isPrefixOf s then some k else none) with
  | none => none
  | some k =>
      match s.drop k.toList.length with
      | [] => none
      | c :: rest =>
          if isSepChar c then
            let run := rest.takeWhile Char.isAlphanum
            if run = [] then none else some (k, run.asString)
          else none

/-- Leftmost match: scan start positions left to right and return the
first successful anchored match, as the regex's captures() does. -/
def findCapture : List Char → Option (String × String)
  | [] => none
  | c :: rest =>
      match captureAt (c :: rest) with
      | some r => some r
      | none => findCapture rest

/-- Trimming of leading and trailing whitespace, as str::trim does
(over the char list). -/
def trimChars (s : List Char) : List Char :=
  ((s.dropWhile Char.isWhitespace).reverse.dropWhile Char.isWhitespace).reverse

/-- What the stdin loop computes from one input line: the captured
(kind, id) of the trimmed line, if the pattern occurs in it. -/
def lineRef (line : String) : Option (String × String) :=
  findCapture (trimChars line.toList)

/-- Declarative shape of one anchored match: the text is a kind word,
then one separator, then a nonempty alphanumeric run, then a suffix
that does not start alphanumeric (so the run is maximal). -/
def CaptureShape (s : List Char) (k : String) (w : List Char) : Prop :=
  k ∈ kindWords ∧ w ≠ [] ∧ (∀ c ∈ w, c.isAlphanum = true) ∧
    ∃ sep suf, isSepChar sep = true ∧ s = k.toList ++ sep :: (w ++ suf) ∧
      ∀ c, suf.head? = some c → c.isAlphanum = false

/-- The pattern occurs at start position i of the text. -/
def OccursAt (s : List Char) (i : Nat) (k : String) (w : List Char) : Prop :=
  CaptureShape (s.drop i) k w

/-- The derived output filename of a track: the sanitized
"artist, artist - title.ogg" string. -/
def trackFname (env : Env) (artists : List String) (trackName : String) : String :=
  env.sanitize (String.intercalate ", " artists ++ " - " ++ trackName ++ ".ogg")

/-- The derived output filename of an episode: "publisher - title.ogg",
taken verbatim (main.rs applies no sanitization on this path). -/
def episodeFname (sh : ShowMeta) (ep : EpisodeMeta) : String :=
  sh.publisher ++ " - " ++ ep.name ++ ".ogg"

/-- The derive(Debug) rendering of a file format, as the debug log
line prints it. -/
def fileFormatDebug : FileFormat → String
  | FileFormat.OGG_VORBIS_96 => "OGG_VORBIS_96"
  | FileFormat.OGG_VORBIS_160 => "OGG_VORBIS_160"
  | FileFormat.OGG_VORBIS_320 => "OGG_VORBIS_320"
  | FileFormat.MP3_256 => "MP3_256"
  | FileFormat.MP3_320 => "MP3_320"
  | FileFormat.MP3_160 => "MP3_160"
  | FileFormat.MP3_96 => "MP3_96"
  | FileFormat.MP3_160_ENC => "MP3_160_ENC"
  | FileFormat.MP4_128_DUAL => "MP4_128_DUAL"
  | FileFormat.OTHER3 => "OTHER3"
  | FileFormat.AAC_160 => "AAC_160"
  | FileFormat.AAC_320 => "AAC_320"
  | FileFormat.MP4_128 => "MP4_128"
  | FileFormat.OTHER5 => "OTHER5"

/-- The debug log line listing the file table's formats. -/
def formatsDebugLine (files : List (FileFormat × Nat)) : String :=
  "File formats: " ++ String.intercalate " " (files.map (fun p => fileFormatDebug p.1))

/-- Lookup of one format in the file table. -/
def lookupFmt (files : List (FileFormat × Nat)) (f : FileFormat) : Option Nat :=
  (files.find? (fun p => p.1 = f)).map Prod.snd

/-- Format selection: OGG_VORBIS_320, else OGG_VORBIS_160, else
OGG_VORBIS_96, exactly as the or-chain in main.rs. -/
def pickFile (files : List (FileFormat × Nat)) : Option Nat :=
  ((lookupFmt files FileFormat.OGG_VORBIS_320).or
    (lookupFmt files FileFormat.OGG_VORBIS_160)).or
    (lookupFmt files FileFormat.OGG_VORBIS_96)

/-- The slice expression buf[167..] (0xa7): Rust panics when the start
index exceeds the length; one past-the-end start is allowed. -/
def sliceFrom (n : Nat) (buf : List Nat) : Except String (List Nat) :=
  if n ≤ buf.length then Except.ok (buf.drop n)
  else Except.error "slice index out of range"

/-- The find_map over a track's alternatives: fetch each candidate in
order; a fetch failure panics; stop at the first available candidate;
ok none when the list is exhausted. -/
def findAlt (env : Env) : List Nat → Trace × Except String (Option TrackMeta)
  | [] => ([], Except.ok none)
  | a :: rest =>
      match env.trackMeta a with
      | none => ([Effect.fetchTrack a], Except.error "Cannot get track metadata")
      | some ta =>
          if ta.available then ([Effect.fetchTrack a], Except.ok (some ta))
          else
            match findAlt env rest with
            | (tr, r) => (Effect.fetchTrack a :: tr, r)

/-- Availability resolution of a fetched track: an available track is
used as is; otherwise the alternatives are searched and the run aborts
when none is available. -/
def resolveTrack (env : Env) (id : Nat) (t : TrackMeta) :
    Trace × Except String TrackMeta :=
  if t.available then ([], Except.ok t)
  else
    let warnT : Trace :=
      [Effect.logWarn ("Track " ++ env.toBase62 id ++ " is not available, finding alternative...")]
    match findAlt env t.alternatives with
    | (tr, Except.error e) => (warnT ++ tr, Except.error e)
    | (tr, Except.ok none) =>
        (warnT ++ tr,
          Except.error ("Could not find alternative for track " ++ env.toBase62 id))
    | (tr, Except.ok (some alt)) =>
        (warnT ++ tr ++
          [Effect.logWarn ("Found track alternative " ++ env.toBase62 id ++ " -> " ++
            env.toBase62 alt.id)],
          Except.ok alt)

/-- Artist resolution: fetch every artist's display name in order; a
fetch failure panics. -/
def fetchArtists (env : Env) : List Nat → Trace × Except String (List String)
  | [] => ([], Except.ok [])
  | a :: rest =>
      match env.artistName a with
      | none => ([Effect.fetchArtist a], Except.error "Cannot get artist metadata")
      | some nm =>
          match fetchArtists env rest with
          | (tr, Except.ok nms) => (Effect.fetchArtist a :: tr, Except.ok (nm :: nms))
          | (tr, Except.error e) => (Effect.fetchArtist a :: tr, Except.error e)

/-- File-mode delivery of a track after decryption: recompute the
filename, re-check existence, then write the header-stripped bytes. -/
def trackDeliverFile (env : Env) (artists : List String) (trackName : String)
    (plain : List Nat) : Trace × Outcome :=
  let fname := trackFname env artists trackName
  if env.fileExists fname then
    ([Effect.logInfo ("File " ++ fname ++ " already exists.")], Outcome.skippedExists)
  else
    match sliceFrom 167 plain with
    | Except.error e => ([], Outcome.fatal e)
    | Except.ok bytes =>
        if env.writeOk fname bytes then
          ([Effect.writeFile fname bytes, Effect.logInfo ("Filename: " ++ fname)],
            Outcome.delivered)
        else ([Effect.writeFile fname bytes], Outcome.fatal "Cannot write decrypted track")

/-- Spawn the helper, pipe the header-stripped bytes to its stdin and
wait; the slice is evaluated after the spawn, so a short buffer panics
with the child already started. -/
def spawnPipeWait (env : Env) (path : String) (args : List String)
    (plain : List Nat) : Trace × Outcome :=
  if env.spawnOk path args then
    match sliceFrom 167 plain with
    | Except.error e => ([Effect.spawnHelper path args], Outcome.fatal e)
    | Except.ok bytes =>
        if env.pipeWriteOk bytes then
          match env.waitResult path args with
          | none =>
              ([Effect.spawnHelper path args, Effect.pipeWrite bytes],
                Outcome.fatal "Out of ideas for error messages")
          | some true =>
              ([Effect.spawnHelper path args, Effect.pipeWrite bytes], Outcome.delivered)
          | some false =>
              ([Effect.spawnHelper path args, Effect.pipeWrite bytes],
                Outcome.fatal "Helper script returned an error")
        else ([Effect.spawnHelper path args], Outcome.fatal "Failed to write to stdin")
  else ([], Outcome.fatal "Could not run helper program")

/-- Helper-mode delivery of a track: fetch the album lazily, then
invoke the helper with (original work-item id, track name, album name,
artists...). -/
def trackDeliverHelper (env : Env) (helperPath : String) (origId : Nat)
    (track : TrackMeta) (artists : List String) (plain : List Nat) : Trace × Outcome :=
  match env.albumMeta track.album with
  | none => ([Effect.fetchAlbum track.album], Outcome.fatal "Cannot get album metadata")
  | some album =>
      match spawnPipeWait env helperPath
        ([env.toBase62 origId, track.name, album.name] ++ artists) plain with
      | (tr, o) => (Effect.fetchAlbum track.album :: tr, o)

/-- The stream-read, decryption and delivery phase of a track, entered
only when the output file does not already exist. -/
def trackReadDecryptDeliver (env : Env) (helper : Option String) (origId : Nat)
    (track : TrackMeta) (artists : List String) (key fid : Nat) : Trace × Outcome :=
  match env.readStream fid with
  | none => ([Effect.readStream fid], Outcome.fatal "Cannot read file stream")
  | some buffer =>
      match env.decrypt key buffer with
      | none => ([Effect.readStream fid], Outcome.fatal "Cannot decrypt stream")
      | some plain =>
          match helper with
          | none =>
              match trackDeliverFile env artists track.name plain with
              | (tr, o) =>
                  (Effect.readStream fid :: Effect.decrypted plain :: tr, o)
          | some hp =>
              match trackDeliverHelper env hp origId track artists plain with
              | (tr, o) =>
                  (Effect.readStream fid :: Effect.decrypted plain :: tr, o)

/-- One track item of the drain loop, from the metadata fetch to a
terminal state, with the effect order of main.rs: availability
resolution, artist fetches, format selection, key request, stream
open, and only then the existence check. -/
def processTrack (env : Env) (helper : Option String) (id : Nat) : Trace × Outcome :=
  let getLog := Effect.logInfo ("Getting track " ++ env.toBase62 id ++ "...")
  match env.trackMeta id with
  | none => ([getLog, Effect.fetchTrack id], Outcome.skippedFetchError)
  | some t0 =>
      match resolveTrack env id t0 with
      | (tr1, Except.error e) =>
          ([getLog, Effect.fetchTrack id] ++ tr1, Outcome.fatal e)
      | (tr1, Except.ok track) =>
          match fetchArtists env track.artists with
          | (tr2, Except.error e) =>
              ([getLog, Effect.fetchTrack id] ++ tr1 ++ tr2, Outcome.fatal e)
          | (tr2, Except.ok artists) =>
              let pre := [getLog, Effect.fetchTrack id] ++ tr1 ++ tr2 ++
                [Effect.logDebug (formatsDebugLine track.files)]
              match pickFile track.files with
              | none =>
                  (pre, Outcome.fatal "Could not find a OGG_VORBIS format for the track.")
              | some fid =>
                  match env.audioKey track.id fid with
                  | none =>
                      (pre ++ [Effect.keyRequest track.id fid],
                        Outcome.fatal "Cannot get audio key")
                  | some key =>
                      if env.openOk fid then
                        let pre2 := pre ++ [Effect.keyRequest track.id fid,
                          Effect.openAudio fid]
                        let fname := trackFname env artists track.name
                        if env.fileExists fname then
                          (pre2 ++ [Effect.logInfo ("File " ++ fname ++ " already exists.")],
                            Outcome.skippedExists)
                        else
                          match trackReadDecryptDeliver env helper id track artists key fid with
                          | (tr3, o) => (pre2 ++ tr3, o)
                      else
                        (pre ++ [Effect.keyRequest track.id fid, Effect.openAudio fid],
                          Outcome.fatal "Cannot open audio file")

/-- File-mode delivery of an episode after decryption: the filename
bound before the first existence check is reused. -/
def episodeDeliverFile (env : Env) (fname : String) (plain : List Nat) :
    Trace × Outcome :=
  if env.fileExists fname then
    ([Effect.logInfo ("File " ++ fname ++ " already exists.")], Outcome.skippedExists)
  else
    match sliceFrom 167 plain with
    | Except.error e => ([], Outcome.fatal e)
    | Except.ok bytes =>
        if env.writeOk fname bytes then
          ([Effect.writeFile fname bytes, Effect.logInfo ("Filename: " ++ fname)],
            Outcome.delivered)
        else ([Effect.writeFile fname bytes], Outcome.fatal "Cannot write decrypted episode")

/-- Helper-mode delivery of an episode: the helper gets (original
work-item id, episode name, show name, show publisher). -/
def episodeDeliverHelper (env : Env) (helperPath : String) (origId : Nat)
    (ep : EpisodeMeta) (sh : ShowMeta) (plain : List Nat) : Trace × Outcome :=
  spawnPipeWait env helperPath
    [env.toBase62 origId, ep.name, sh.name, sh.publisher] plain

/-- The stream-read, decryption and delivery phase of an episode. -/
def episodeReadDecryptDeliver (env : Env) (helper : Option String) (origId : Nat)
    (ep : EpisodeMeta) (sh : ShowMeta) (key fid : Nat) (fname : String) :
    Trace × Outcome :=
  match env.readStream fid with
  | none => ([Effect.readStream fid], Outcome.fatal "Cannot read file stream")
  | some buffer =>
      match env.decrypt key buffer with
      | none => ([Effect.readStream fid], Outcome.fatal "Cannot decrypt stream")
      | some plain =>
          match helper with
          | none =>
              match episodeDeliverFile env fname plain with
              | (tr, o) => (Effect.readStream fid :: Effect.decrypted plain :: tr, o)
          | some hp =>
              match episodeDeliverHelper env hp origId ep sh plain with
              | (tr, o) => (Effect.readStream fid :: Effect.decrypted plain :: tr, o)

/-- One episode item of the drain loop: metadata fetch (its failure
skips the item), unavailability is only logged, the show is always
fetched, then format selection, key request, stream open and the
existence check on the unsanitized filename. -/
def processEpisode (env : Env) (helper : Option String) (id : Nat) : Trace × Outcome :=
  let getLog := Effect.logInfo ("Getting episode " ++ env.toBase62 id ++ "...")
  match env.episodeMeta id with
  | none => ([getLog, Effect.fetchEpisode id], Outcome.skippedFetchError)
  | some ep =>
      let availT : Trace :=
        if ep.available then []
        else [Effect.logWarn ("Episode " ++ env.toBase62 id ++ " is not available.")]
      match env.showMeta ep.showId with
      | none =>
          ([getLog, Effect.fetchEpisode id] ++ availT ++ [Effect.fetchShow ep.showId],
            Outcome.fatal "Cannot get show")
      | some sh =>
          let pre := [getLog, Effect.fetchEpisode id] ++ availT ++
            [Effect.fetchShow ep.showId, Effect.logDebug (formatsDebugLine ep.files)]
          match pickFile ep.files with
          | none =>
              (pre, Outcome.fatal "Could not find a OGG_VORBIS format for the episode.")
          | some fid =>
              match env.audioKey ep.id fid with
              | none =>
                  (pre ++ [Effect.keyRequest ep.id fid],
                    Outcome.fatal "Cannot get audio key")
              | some key =>
                  if env.openOk fid then
                    let pre2 := pre ++ [Effect.keyRequest ep.id fid, Effect.openAudio fid]
                    let fname := episodeFname sh ep
                    if env.fileExists fname then
                      (pre2 ++ [Effect.logInfo ("File " ++ fname ++ " already exists.")],
                        Outcome.skippedExists)
                    else
                      match episodeReadDecryptDeliver env helper id ep sh key fid fname with
                      | (tr3, o) => (pre2 ++ tr3, o)
                  else
                    (pre ++ [Effect.keyRequest ep.id fid, Effect.openAudio fid],
                      Outcome.fatal "Cannot open audio file")

/-- Dispatch on the stored kind string, as the drain loop's match. -/
def processItem (env : Env) (helper : Option String) (id : Nat) (kind : String) :
    Trace × Outcome :=
  if kind = "track" then processTrack env helper id
  else if kind = "episode" then processEpisode env helper id
  else ([Effect.logWarn ("Error " ++ kind)], Outcome.unknownKind)

/-- The drain loop over the worklist: items are processed in order; a
fatal outcome (a panic) stops the run with its message; every other
outcome continues with the next item. -/
def runItems (env : Env) (helper : Option String) :
    List (Nat × String) → Trace × Option String
  | [] => ([], none)
  | p :: rest =>
      match processItem env helper p.1 p.2 with
      | (tr, Outcome.fatal msg) => (tr, some msg)
      | (tr, _) =>
          match runItems env helper rest with
          | (tr2, r) => (tr ++ tr2, r)

/-- Effects of the audio phase: stream read, decryption, file write,
helper spawn and helper stdin write. The metadata phase before the
existence check emits none of these. -/
def isDeliveryEffect (e : Effect) : Bool :=
  match e with
  | Effect.readStream _ => true
  | Effect.decrypted _ => true
  | Effect.writeFile _ _ => true
  | Effect.pipeWrite _ => true
  | Effect.spawnHelper _ _ => true
  | _ => false

theorem findAlt_effects (env : Env) (l : List Nat) :
    ∀ e ∈ (findAlt env l).1, isDeliveryEffect e = false := by
  induction l with
  | nil => intro e he; simp [findAlt] at he
  | cons a rest ih =>
      intro e he
      unfold findAlt at he
      cases hm : env.trackMeta a <;> rw [hm] at he
      · simp at he
        simp [he, isDeliveryEffect]
      · rename_i ta
        dsimp only at he
        by_cases hav : ta.available
        · rw [if_pos hav] at he
          simp at he
          simp [he, isDeliveryEffect]
        · rw [if_neg hav] at he
          cases hrec : findAlt env rest with
          | mk tr r =>
              rw [hrec] at he
              dsimp only at he
              rcases List.mem_cons.mp he with h | h
              · simp [h, isDeliveryEffect]
              · exact ih e (by rw [hrec]; exact h)

theorem fetchArtists_effects (env : Env) (l : List Nat) :
    ∀ e ∈ (fetchArtists env l).1, isDeliveryEffect e = false := by
  induction l with
  | nil => intro e he; simp [fetchArtists] at he
  | cons a rest ih =>
      intro e he
      unfold fetchArtists at he
      cases hm : env.artistName a <;> rw [hm] at he
      · simp at he
        simp [he, isDeliveryEffect]
      · rename_i nm
        dsimp only at he
        cases hrec : fetchArtists env rest with
        | mk tr r =>
            rw [hrec] at he
            cases r with
            | ok nms =>
                dsimp only at he
                rcases List.mem_cons.mp he with h | h
                · simp [h, isDeliveryEffect]
                · exact ih e (by rw [hrec]; exact h)
            | error er =>
                dsimp only at he
                rcases List.mem_cons.mp he with h | h
                · simp [h, isDeliveryEffect]
                · exact ih e (by rw [hrec]; exact h)

theorem resolveTrack_effects (env : Env) (id : Nat) (t : TrackMeta) :
    ∀ e ∈ (resolveTrack env id t).1, isDeliveryEffect e = false := by
  intro e he
  unfold resolveTrack at he
  by_cases hav : t.available
  · rw [if_pos hav] at he
    simp at he
  · rw [if_neg hav] at he
    cases hfa : findAlt env t.alternatives with
    | mk tr r =>
        rw [hfa] at he
        cases r with
        | error er =>
            dsimp only at he
            rcases List.mem_append.mp he with h | h
            · simp at h; simp [h, isDeliveryEffect]
            · exact findAlt_effects env t.alternatives e (by rw [hfa]; exact h)
        | ok o =>
            cases o with
            | none =>
                dsimp only at he
                rcases List.mem_append.mp he with h | h
                · simp at h; simp [h, isDeliveryEffect]
                · exact findAlt_effects env t.alternatives e (by rw [hfa]; exact h)
            | some alt =>
                dsimp only at he
                rcases List.mem_append.mp he with h | h
                · rcases List.mem_append.mp h with h2 | h2
                  · simp at h2; simp [h2, isDeliveryEffect]
                  · exact findAlt_effects env t.alternatives e (by rw [hfa]; exact h2)
                · simp at h; simp [h, isDeliveryEffect]

theorem sliceFrom_ok_inv (n : Nat) (buf b : List Nat)
    (h : sliceFrom n buf = Except.ok b) : b = buf.drop n := by
  unfold sliceFrom at h
  split at h
  · injection h with h; exact h.symm
  · cases h

theorem sliceFrom_err (n : Nat) (buf : List Nat) (h : buf.length < n) :
    sliceFrom n buf = Except.error "slice index out of range" := by
  unfold sliceFrom
  rw [if_neg (by omega)]

theorem trackDeliverFile_no_decrypt (env : Env) (artists : List String)
    (nm : String) (plain : List Nat) (p : List Nat) :
    Effect.decrypted p ∉ (trackDeliverFile env artists nm plain).1 := by
  intro hmem
  unfold trackDeliverFile at hmem
  dsimp only at hmem
  split at hmem
  · simp at hmem
  · split at hmem
    · simp at hmem
    · split at hmem <;> simp at hmem

theorem trackDeliverFile_bytes (env : Env) (artists : List String)
    (nm : String) (plain : List Nat) (f : String) (b : List Nat)
    (h : Effect.writeFile f b ∈ (trackDeliverFile env artists nm plain).1 ∨
      Effect.pipeWrite b ∈ (trackDeliverFile env artists nm plain).1) :
    b = plain.drop 167 := by
  rcases h with h | h <;>
    (unfold trackDeliverFile at h
     dsimp only at h
     split at h
     · simp at h
     · cases hs : sliceFrom 167 plain with
       | error e => rw [hs] at h; simp at h
       | ok bytes =>
           rw [hs] at h
           have hb := sliceFrom_ok_inv 167 plain bytes hs
           dsimp only at h
           split at h <;> simp at h <;> exact h.2.trans hb)

theorem trackDeliverFile_short (env : Env) (artists : List String)
    (nm : String) (plain : List Nat)
    (hfe : env.fileExists (trackFname env artists nm) = false)
    (hlen : plain.length < 167) :
    trackDeliverFile env artists nm plain =
      ([], Outcome.fatal "slice index out of range") := by
  unfold trackDeliverFile
  dsimp only
  rw [if_neg (by rw [hfe]; exact Bool.false_ne_true), sliceFrom_err 167 plain hlen]

theorem trackDeliverFile_outcome (env : Env) (artists : List String)
    (nm : String) (plain : List Nat) :
    (trackDeliverFile env artists nm plain).2 = Outcome.delivered ∨
    (trackDeliverFile env artists nm plain).2 = Outcome.skippedExists ∨
    ∃ m, (trackDeliverFile env artists nm plain).2 = Outcome.fatal m := by
  unfold trackDeliverFile
  dsimp only
  split
  · right; left; rfl
  · split
    · right; right; exact ⟨_, rfl⟩
    · split
      · left; rfl
      · right; right; exact ⟨_, rfl⟩

theorem spawnPipeWait_no_decrypt (env : Env) (path : String) (args : List String)
    (plain : List Nat) (p : List Nat) :
    Effect.decrypted p ∉ (spawnPipeWait env path args plain).1 := by
  intro hmem
  unfold spawnPipeWait at hmem
  split at hmem
  · split at hmem
    · simp at hmem
    · split at hmem
      · split at hmem <;> simp at hmem
      · simp at hmem
  · simp at hmem

theorem spawnPipeWait_no_write (env : Env) (path : String) (args : List String)
    (plain : List Nat) (f : String) (b : List Nat) :
    Effect.writeFile f b ∉ (spawnPipeWait env path args plain).1 := by
  intro hmem
  unfold spawnPipeWait at hmem
  split at hmem
  · split at hmem
    · simp at hmem
    · split at hmem
      · split at hmem <;> simp at hmem
      · simp at hmem
  · simp at hmem

theorem spawnPipeWait_bytes (env : Env) (path : String) (args : List String)
    (plain : List Nat) (b : List Nat)
    (h : Effect.pipeWrite b ∈ (spawnPipeWait env path args plain).1) :
    b = plain.drop 167 := by
  unfold spawnPipeWait at h
  split at h
  · cases hs : sliceFrom 167 plain with
    | error e => rw [hs] at h; simp at h
    | ok bytes =>
        rw [hs] at h
        have hb := sliceFrom_ok_inv 167 plain bytes hs
        dsimp only at h
        split at h
        · split at h <;> simp at h <;> exact h.trans hb
        · simp at h
  · simp at h

theorem spawnPipeWait_short (env : Env) (path : String) (args : List String)
    (plain : List Nat) (hlen : plain.length < 167) :
    (∃ m, (spawnPipeWait env path args plain).2 = Outcome.fatal m) ∧
      ∀ b, Effect.pipeWrite b ∉ (spawnPipeWait env path args plain).1 := by
  unfold spawnPipeWait
  rw [sliceFrom_err 167 plain hlen]
  split
  · exact ⟨⟨_, rfl⟩, by intro b hb; simp at hb⟩
  · exact ⟨⟨_, rfl⟩, by intro b hb; simp at hb⟩

theorem spawnPipeWait_outcome (env : Env) (path : String) (args : List String)
    (plain : List Nat) :
    (spawnPipeWait env path args plain).2 = Outcome.delivered ∨
    ∃ m, (spawnPipeWait env path args plain).2 = Outcome.fatal m := by
  unfold spawnPipeWait
  split
  · split
    · right; exact ⟨_, rfl⟩
    · split
      · split
        · right; exact ⟨_, rfl⟩
        · left; rfl
        · right; exact ⟨_, rfl⟩
      · right; exact ⟨_, rfl⟩
  · right; exact ⟨_, rfl⟩

theorem trackDeliverHelper_no_decrypt (env : Env) (hp : String) (origId : Nat)
    (track : TrackMeta) (artists : List String) (plain : List Nat) (p : List Nat) :
    Effect.decrypted p ∉ (trackDeliverHelper env hp origId track artists plain).1 := by
  intro hmem
  unfold trackDeliverHelper at hmem
  split at hmem
  · simp at hmem
  · rename_i album heq
    cases hs : spawnPipeWait env hp ([env.toBase62 origId, track.name, album.name] ++ artists) plain with
    | mk tr o =>
        rw [hs] at hmem
        dsimp only at hmem
        rcases List.mem_cons.mp hmem with h | h
        · cases h
        · exact spawnPipeWait_no_decrypt env hp _ plain p (by rw [hs]; exact h)

theorem trackDeliverHelper_no_write (env : Env) (hp : String) (origId : Nat)
    (track : TrackMeta) (artists : List String) (plain : List Nat)
    (f : String) (b : List Nat) :
    Effect.writeFile f b ∉ (trackDeliverHelper env hp origId track artists plain).1 := by
  intro hmem
  unfold trackDeliverHelper at hmem
  split at hmem
  · simp at hmem
  · rename_i album heq
    cases hs : spawnPipeWait env hp ([env.toBase62 origId, track.name, album.name] ++ artists) plain with
    | mk tr o =>
        rw [hs] at hmem
        dsimp only at hmem
        rcases List.mem_cons.mp hmem with h | h
        · cases h
        · exact spawnPipeWait_no_write env hp _ plain f b (by rw [hs]; exact h)

theorem trackDeliverHelper_bytes (env : Env) (hp : String) (origId : Nat)
    (track : TrackMeta) (artists : List String) (plain : List Nat) (b : List Nat)
    (h : Effect.pipeWrite b ∈ (trackDeliverHelper env hp origId track artists plain).1) :
    b = plain.drop 167 := by
  unfold trackDeliverHelper at h
  split at h
  · simp at h
  · rename_i album heq
    cases hs : spawnPipeWait env hp ([env.toBase62 origId, track.name, album.name] ++ artists) plain with
    | mk tr o =>
        rw [hs] at h
        dsimp only at h
        rcases List.mem_cons.mp h with h2 | h2
        · cases h2
        · exact spawnPipeWait_bytes env hp _ plain b (by rw [hs]; exact h2)

theorem trackDeliverHelper_short (env : Env) (hp : String) (origId : Nat)
    (track : TrackMeta) (artists : List String) (plain : List Nat)
    (hlen : plain.length < 167) :
    (∃ m, (trackDeliverHelper env hp origId track artists plain).2 = Outcome.fatal m) ∧
      ∀ b, Effect.pipeWrite b ∉ (trackDeliverHelper env hp origId track artists plain).1 := by
  unfold trackDeliverHelper
  split
  · exact ⟨⟨_, rfl⟩, by intro b hb; simp at hb⟩
  · rename_i album heq
    cases hs : spawnPipeWait env hp ([env.toBase62 origId, track.name, album.name] ++ artists) plain with
    | mk tr o =>
        have := spawnPipeWait_short env hp ([env.toBase62 origId, track.name, album.name] ++ artists) plain hlen
        rw [hs] at this
        dsimp only
        refine ⟨this.1, ?_⟩
        intro b hb
        rcases List.mem_cons.mp hb with h2 | h2
        · cases h2
        · exact this.2 b h2

theorem trackDeliverHelper_outcome (env : Env) (hp : String) (origId : Nat)
    (track : TrackMeta) (artists : List String) (plain : List Nat) :
    (trackDeliverHelper env hp origId track artists plain).2 = Outcome.delivered ∨
    ∃ m, (trackDeliverHelper env hp origId track artists plain).2 = Outcome.fatal m := by
  unfold trackDeliverHelper
  split
  · right; exact ⟨_, rfl⟩
  · rename_i album heq
    cases hs : spawnPipeWait env hp ([env.toBase62 origId, track.name, album.name] ++ artists) plain with
    | mk tr o =>
        have := spawnPipeWait_outcome env hp ([env.toBase62 origId, track.name, album.name] ++ artists) plain
        rw [hs] at this
        exact this

theorem episodeDeliverFile_no_decrypt (env : Env) (fname : String)
    (plain : List Nat) (p : List Nat) :
    Effect.decrypted p ∉ (episodeDeliverFile env fname plain).1 := by
  intro hmem
  unfold episodeDeliverFile at hmem
  split at hmem
  · simp at hmem
  · split at hmem
    · simp at hmem
    · split at hmem <;> simp at hmem

theorem episodeDeliverFile_bytes (env : Env) (fname : String)
    (plain : List Nat) (f : String) (b : List Nat)
    (h : Effect.writeFile f b ∈ (episodeDeliverFile env fname plain).1 ∨
      Effect.pipeWrite b ∈ (episodeDeliverFile env fname plain).1) :
    b = plain.drop 167 := by
  rcases h with h | h <;>
    (unfold episodeDeliverFile at h
     split at h
     · simp at h
     · cases hs : sliceFrom 167 plain with
       | error e => rw [hs] at h; simp at h
       | ok bytes =>
           rw [hs] at h
           have hb := sliceFrom_ok_inv 167 plain bytes hs
           dsimp only at h
           split at h <;> simp at h <;> exact h.2.trans hb)

theorem episodeDeliverFile_short (env : Env) (fname : String) (plain : List Nat)
    (hfe : env.fileExists fname = false) (hlen : plain.length < 167) :
    episodeDeliverFile env fname plain =
      ([], Outcome.fatal "slice index out of range") := by
  unfold episodeDeliverFile
  rw [if_neg (by rw [hfe]; exact Bool.false_ne_true), sliceFrom_err 167 plain hlen]

theorem episodeDeliverFile_outcome (env : Env) (fname : String) (plain : List Nat) :
    (episodeDeliverFile env fname plain).2 = Outcome.delivered ∨
    (episodeDeliverFile env fname plain).2 = Outcome.skippedExists ∨
    ∃ m, (episodeDeliverFile env fname plain).2 = Outcome.fatal m := by
  unfold episodeDeliverFile
  split
  · right; left; rfl
  · split
    · right; right; exact ⟨_, rfl⟩
    · split
      · left; rfl
      · right; right; exact ⟨_, rfl⟩

theorem trackRDD_bytes (env : Env) (helper : Option String) (origId : Nat)
    (track : TrackMeta) (artists : List String) (key fid : Nat)
    (plain : List Nat) (f : String) (b : List Nat)
    (hd : Effect.decrypted plain ∈
      (trackReadDecryptDeliver env helper origId track artists key fid).1)
    (hw : Effect.writeFile f b ∈
        (trackReadDecryptDeliver env helper origId track artists key fid).1 ∨
      Effect.pipeWrite b ∈
        (trackReadDecryptDeliver env helper origId track artists key fid).1) :
    b = plain.drop 167 := by
  unfold trackReadDecryptDeliver at hd hw
  cases hr : env.readStream fid <;> rw [hr] at hd hw
  · simp at hd
  · rename_i buffer
    dsimp only at hd hw
    cases hdec : env.decrypt key buffer <;> rw [hdec] at hd hw
    · simp at hd
    · rename_i plain2
      dsimp only at hd hw
      cases helper with
      | none =>
          dsimp only at hd hw
          cases htd : trackDeliverFile env artists track.name plain2 with
          | mk tr0 o =>
              rw [htd] at hd hw
              dsimp only at hd hw
              have hpp : plain = plain2 := by
                rcases List.mem_cons.mp hd with h | h
                · cases h
                · rcases List.mem_cons.mp h with h2 | h2
                  · exact Effect.decrypted.inj h2
                  · exact absurd h2 (by
                      have := trackDeliverFile_no_decrypt env artists track.name plain2 plain
                      rw [htd] at this
                      exact this)
              subst hpp
              rcases hw with h | h
              · rcases List.mem_cons.mp h with h2 | h2
                · cases h2
                · rcases List.mem_cons.mp h2 with h3 | h3
                  · cases h3
                  · exact trackDeliverFile_bytes env artists track.name plain f b
                      (Or.inl (by rw [htd]; exact h3))
              · rcases List.mem_cons.mp h with h2 | h2
                · cases h2
                · rcases List.mem_cons.mp h2 with h3 | h3
                  · cases h3
                  · exact trackDeliverFile_bytes env artists track.name plain f b
                      (Or.inr (by rw [htd]; exact h3))
      | some hp =>
          dsimp only at hd hw
          cases htd : trackDeliverHelper env hp origId track artists plain2 with
          | mk tr0 o =>
              rw [htd] at hd hw
              dsimp only at hd hw
              have hpp : plain = plain2 := by
                rcases List.mem_cons.mp hd with h | h
                · cases h
                · rcases List.mem_cons.mp h with h2 | h2
                  · exact Effect.decrypted.inj h2
                  · exact absurd h2 (by
                      have := trackDeliverHelper_no_decrypt env hp origId track artists plain2 plain
                      rw [htd] at this
                      exact this)
              subst hpp
              rcases hw with h | h
              · rcases List.mem_cons.mp h with h2 | h2
                · cases h2
                · rcases List.mem_cons.mp h2 with h3 | h3
                  · cases h3
                  · exact absurd h3 (by
                      have := trackDeliverHelper_no_write env hp origId track artists plain f b
                      rw [htd] at this
                      exact this)
              · rcases List.mem_cons.mp h with h2 | h2
                · cases h2
                · rcases List.mem_cons.mp h2 with h3 | h3
                  · cases h3
                  · refine trackDeliverHelper_bytes env hp origId track artists plain b ?_
                    rw [htd]
                    exact h3

theorem trackRDD_short (env : Env) (helper : Option String) (origId : Nat)
    (track : TrackMeta) (artists : List String) (key fid : Nat) (plain : List Nat)
    (hfe : env.fileExists (trackFname env artists track.name) = false)
    (hd : Effect.decrypted plain ∈
      (trackReadDecryptDeliver env helper origId track artists key fid).1)
    (hlen : plain.length < 167) :
    (∃ m, (trackReadDecryptDeliver env helper origId track artists key fid).2 =
        Outcome.fatal m) ∧
      (∀ f b, Effect.writeFile f b ∉
        (trackReadDecryptDeliver env helper origId track artists key fid).1) ∧
      (∀ b, Effect.pipeWrite b ∉
        (trackReadDecryptDeliver env helper origId track artists key fid).1) := by
  unfold trackReadDecryptDeliver at hd ⊢
  cases hr : env.readStream fid
  · rw [hr] at hd
    simp at hd
  · rename_i buffer
    rw [hr] at hd
    dsimp only at hd ⊢
    cases hdec : env.decrypt key buffer
    · rw [hdec] at hd
      simp at hd
    · rename_i plain2
      rw [hdec] at hd
      dsimp only at hd ⊢
      cases helper with
      | none =>
          dsimp only at hd ⊢
          have hpp : plain = plain2 := by
            rcases List.mem_cons.mp hd with h | h
            · cases h
            · rcases List.mem_cons.mp h with h2 | h2
              · exact Effect.decrypted.inj h2
              · exact absurd h2 (trackDeliverFile_no_decrypt env artists track.name plain2 plain)
          subst hpp
          rw [trackDeliverFile_short env artists track.name plain hfe hlen]
          refine ⟨⟨_, rfl⟩, ?_, ?_⟩
          · intro f b hb
            simp at hb
          · intro b hb
            simp at hb
      | some hp =>
          dsimp only at hd ⊢
          have hpp : plain = plain2 := by
            rcases List.mem_cons.mp hd with h | h
            · cases h
            · rcases List.mem_cons.mp h with h2 | h2
              · exact Effect.decrypted.inj h2
              · exact absurd h2 (trackDeliverHelper_no_decrypt env hp origId track artists plain2 plain)
          subst hpp
          have hshort := trackDeliverHelper_short env hp origId track artists plain hlen
          refine ⟨hshort.1, ?_, ?_⟩
          · intro f b hb
            rcases List.mem_cons.mp hb with h2 | h2
            · cases h2
            · rcases List.mem_cons.mp h2 with h3 | h3
              · cases h3
              · exact absurd h3 (trackDeliverHelper_no_write env hp origId track artists plain f b)
          · intro b hb
            rcases List.mem_cons.mp hb with h2 | h2
            · cases h2
            · rcases List.mem_cons.mp h2 with h3 | h3
              · cases h3
              · exact absurd h3 (hshort.2 b)


theorem trackRDD_outcome (env : Env) (helper : Option String) (origId : Nat)
    (track : TrackMeta) (artists : List String) (key fid : Nat) :
    (trackReadDecryptDeliver env helper origId track artists key fid).2 = Outcome.delivered ∨
    (trackReadDecryptDeliver env helper origId track artists key fid).2 = Outcome.skippedExists ∨
    ∃ m, (trackReadDecryptDeliver env helper origId track artists key fid).2 = Outcome.fatal m := by
  unfold trackReadDecryptDeliver
  cases hr : env.readStream fid
  · right; right; exact ⟨_, rfl⟩
  · rename_i buffer
    dsimp only
    cases hdec : env.decrypt key buffer
    · right; right; exact ⟨_, rfl⟩
    · rename_i plain2
      dsimp only
      cases helper with
      | none =>
          dsimp only
          cases htd : trackDeliverFile env artists track.name plain2 with
          | mk tr0 o =>
              have := trackDeliverFile_outcome env artists track.name plain2
              rw [htd] at this
              exact this
      | some hp =>
          dsimp only
          cases htd : trackDeliverHelper env hp origId track artists plain2 with
          | mk tr0 o =>
              have := trackDeliverHelper_outcome env hp origId track artists plain2
              rw [htd] at this
              rcases this with h | h
              · left; exact h
              · right; right; exact h

theorem episodeRDD_bytes (env : Env) (helper : Option String) (origId : Nat)
    (ep : EpisodeMeta) (sh : ShowMeta) (key fid : Nat) (fname : String)
    (plain : List Nat) (f : String) (b : List Nat)
    (hd : Effect.decrypted plain ∈
      (episodeReadDecryptDeliver env helper origId ep sh key fid fname).1)
    (hw : Effect.writeFile f b ∈
        (episodeReadDecryptDeliver env helper origId ep sh key fid fname).1 ∨
      Effect.pipeWrite b ∈
        (episodeReadDecryptDeliver env helper origId ep sh key fid fname).1) :
    b = plain.drop 167 := by
  unfold episodeReadDecryptDeliver at hd hw
  cases hr : env.readStream fid <;> rw [hr] at hd hw
  · simp at hd
  · rename_i buffer
    dsimp only at hd hw
    cases hdec : env.decrypt key buffer <;> rw [hdec] at hd hw
    · simp at hd
    · rename_i plain2
      dsimp only at hd hw
      cases helper with
      | none =>
          dsimp only at hd hw
          have hpp : plain = plain2 := by
            rcases List.mem_cons.mp hd with h | h
            · cases h
            · rcases List.mem_cons.mp h with h2 | h2
              · exact Effect.decrypted.inj h2
              · exact absurd h2 (episodeDeliverFile_no_decrypt env fname plain2 plain)
          subst hpp
          rcases hw with h | h
          · rcases List.mem_cons.mp h with h2 | h2
            · cases h2
            · rcases List.mem_cons.mp h2 with h3 | h3
              · cases h3
              · exact episodeDeliverFile_bytes env fname plain f b (Or.inl h3)
          · rcases List.mem_cons.mp h with h2 | h2
            · cases h2
            · rcases List.mem_cons.mp h2 with h3 | h3
              · cases h3
              · exact episodeDeliverFile_bytes env fname plain f b (Or.inr h3)
      | some hp =>
          dsimp only at hd hw
          have hpp : plain = plain2 := by
            rcases List.mem_cons.mp hd with h | h
            · cases h
            · rcases List.mem_cons.mp h with h2 | h2
              · exact Effect.decrypted.inj h2
              · exact absurd h2 (by
                  show Effect.decrypted plain ∉
                    (spawnPipeWait env hp [env.toBase62 origId, ep.name, sh.name, sh.publisher] plain2).1
                  exact spawnPipeWait_no_decrypt env hp _ plain2 plain)
          subst hpp
          rcases hw with h | h
          · rcases List.mem_cons.mp h with h2 | h2
            · cases h2
            · rcases List.mem_cons.mp h2 with h3 | h3
              · cases h3
              · exact absurd h3 (spawnPipeWait_no_write env hp _ plain f b)
          · rcases List.mem_cons.mp h with h2 | h2
            · cases h2
            · rcases List.mem_cons.mp h2 with h3 | h3
              · cases h3
              · exact spawnPipeWait_bytes env hp _ plain b h3

theorem episodeRDD_short (env : Env) (helper : Option String) (origId : Nat)
    (ep : EpisodeMeta) (sh : ShowMeta) (key fid : Nat) (fname : String)
    (plain : List Nat)
    (hfe : env.fileExists fname = false)
    (hd : Effect.decrypted plain ∈
      (episodeReadDecryptDeliver env helper origId ep sh key fid fname).1)
    (hlen : plain.length < 167) :
    (∃ m, (episodeReadDecryptDeliver env helper origId ep sh key fid fname).2 =
        Outcome.fatal m) ∧
      (∀ f b, Effect.writeFile f b ∉
        (episodeReadDecryptDeliver env helper origId ep sh key fid fname).1) ∧
      (∀ b, Effect.pipeWrite b ∉
        (episodeReadDecryptDeliver env helper origId ep sh key fid fname).1) := by
  unfold episodeReadDecryptDeliver at hd ⊢
  cases hr : env.readStream fid
  · rw [hr] at hd
    simp at hd
  · rename_i buffer
    rw [hr] at hd
    dsimp only at hd ⊢
    cases hdec : env.decrypt key buffer
    · rw [hdec] at hd
      simp at hd
    · rename_i plain2
      rw [hdec] at hd
      dsimp only at hd ⊢
      cases helper with
      | none =>
          dsimp only at hd ⊢
          have hpp : plain = plain2 := by
            rcases List.mem_cons.mp hd with h | h
            · cases h
            · rcases List.mem_cons.mp h with h2 | h2
              · exact Effect.decrypted.inj h2
              · exact absurd h2 (episodeDeliverFile_no_decrypt env fname plain2 plain)
          subst hpp
          rw [episodeDeliverFile_short env fname plain hfe hlen]
          refine ⟨⟨_, rfl⟩, ?_, ?_⟩
          · intro f b hb
            simp at hb
          · intro b hb
            simp at hb
      | some hp =>
          dsimp only at hd ⊢
          unfold episodeDeliverHelper at hd ⊢
          have hpp : plain = plain2 := by
            rcases List.mem_cons.mp hd with h | h
            · cases h
            · rcases List.mem_cons.mp h with h2 | h2
              · exact Effect.decrypted.inj h2
              · exact absurd h2 (spawnPipeWait_no_decrypt env hp _ plain2 plain)
          subst hpp
          have hshort := spawnPipeWait_short env hp
            [env.toBase62 origId, ep.name, sh.name, sh.publisher] plain hlen
          refine ⟨hshort.1, ?_, ?_⟩
          · intro f b hb
            rcases List.mem_cons.mp hb with h2 | h2
            · cases h2
            · rcases List.mem_cons.mp h2 with h3 | h3
              · cases h3
              · exact absurd h3 (spawnPipeWait_no_write env hp _ plain f b)
          · intro b hb
            rcases List.mem_cons.mp hb with h2 | h2
            · cases h2
            · rcases List.mem_cons.mp h2 with h3 | h3
              · cases h3
              · exact absurd h3 (hshort.2 b)


theorem episodeRDD_outcome (env : Env) (helper : Option String) (origId : Nat)
    (ep : EpisodeMeta) (sh : ShowMeta) (key fid : Nat) (fname : String) :
    (episodeReadDecryptDeliver env helper origId ep sh key fid fname).2 = Outcome.delivered ∨
    (episodeReadDecryptDeliver env helper origId ep sh key fid fname).2 = Outcome.skippedExists ∨
    ∃ m, (episodeReadDecryptDeliver env helper origId ep sh key fid fname).2 = Outcome.fatal m := by
  unfold episodeReadDecryptDeliver
  cases hr : env.readStream fid
  · right; right; exact ⟨_, rfl⟩
  · rename_i buffer
    dsimp only
    cases hdec : env.decrypt key buffer
    · right; right; exact ⟨_, rfl⟩
    · rename_i plain2
      dsimp only
      cases helper with
      | none =>
          dsimp only
          cases htd : episodeDeliverFile env fname plain2 with
          | mk tr0 o =>
              have := episodeDeliverFile_outcome env fname plain2
              rw [htd] at this
              exact this
      | some hp =>
          dsimp only
          unfold episodeDeliverHelper
          cases hs : spawnPipeWait env hp
            [env.toBase62 origId, ep.name, sh.name, sh.publisher] plain2 with
          | mk tr0 o =>
              have := spawnPipeWait_outcome env hp
                [env.toBase62 origId, ep.name, sh.name, sh.publisher] plain2
              rw [hs] at this
              rcases this with h | h
              · left; exact h
              · right; right; exact h

theorem mem_append_nd {tr1 tr2 : Trace}
    (h1 : ∀ e ∈ tr1, isDeliveryEffect e = false)
    (h2 : ∀ e ∈ tr2, isDeliveryEffect e = false) :
    ∀ e ∈ tr1 ++ tr2, isDeliveryEffect e = false := by
  intro e he
  rcases List.mem_append.mp he with h | h
  · exact h1 e h
  · exact h2 e h

/-- Every run of processTrack either performs no audio-phase effect at
all, or splits into a metadata prefix without audio-phase effects
followed by the read/decrypt/deliver phase, entered only with the
derived filename absent. -/
theorem processTrack_shape (env : Env) (helper : Option String) (id : Nat) :
    (∀ e ∈ (processTrack env helper id).1, isDeliveryEffect e = false) ∨
    ∃ pre track artists key fid,
      (∀ e ∈ pre, isDeliveryEffect e = false) ∧
      env.fileExists (trackFname env artists track.name) = false ∧
      processTrack env helper id =
        (pre ++ (trackReadDecryptDeliver env helper id track artists key fid).1,
          (trackReadDecryptDeliver env helper id track artists key fid).2) := by
  unfold processTrack
  cases hm : env.trackMeta id
  · left
    intro e he
    simp at he
    rcases he with rfl | rfl <;> rfl
  · rename_i t0
    dsimp only
    have hres_nd := resolveTrack_effects env id t0
    cases hres : resolveTrack env id t0 with
    | mk tr1 res1 =>
        rw [hres] at hres_nd
        cases res1 with
        | error e1 =>
            left
            refine mem_append_nd ?_ hres_nd
            intro e he
            simp at he
            rcases he with rfl | rfl <;> rfl
        | ok track =>
            dsimp only
            have hart_nd := fetchArtists_effects env track.artists
            cases hart : fetchArtists env track.artists with
            | mk tr2 res2 =>
                rw [hart] at hart_nd
                cases res2 with
                | error e2 =>
                    left
                    refine mem_append_nd (mem_append_nd ?_ hres_nd) hart_nd
                    intro e he
                    simp at he
                    rcases he with rfl | rfl <;> rfl
                | ok artists =>
                    dsimp only
                    have hpre_nd : ∀ e ∈ ([Effect.logInfo ("Getting track " ++ env.toBase62 id ++ "..."),
                        Effect.fetchTrack id] ++ tr1 ++ tr2 ++
                        [Effect.logDebug (formatsDebugLine track.files)] : Trace),
                        isDeliveryEffect e = false := by
                      refine mem_append_nd (mem_append_nd (mem_append_nd ?_ hres_nd) hart_nd) ?_
                      · intro e he
                        simp at he
                        rcases he with rfl | rfl <;> rfl
                      · intro e he
                        simp at he
                        subst he
                        rfl
                    cases hpick : pickFile track.files
                    · left
                      exact hpre_nd
                    · rename_i fid
                      dsimp only
                      cases hkey : env.audioKey track.id fid
                      · left
                        refine mem_append_nd hpre_nd ?_
                        intro e he
                        simp at he
                        subst he
                        rfl
                      · rename_i key
                        dsimp only
                        by_cases hopen : env.openOk fid
                        · rw [if_pos hopen]
                          by_cases hfe : env.fileExists (trackFname env artists track.name)
                          · rw [if_pos hfe]
                            left
                            refine mem_append_nd (mem_append_nd hpre_nd ?_) ?_
                            · intro e he
                              simp at he
                              rcases he with rfl | rfl <;> rfl
                            · intro e he
                              simp at he
                              subst he
                              rfl
                          · rw [if_neg hfe]
                            right
                            cases hrdd : trackReadDecryptDeliver env helper id track artists key fid with
                            | mk tr3 o =>
                                refine ⟨[Effect.logInfo ("Getting track " ++ env.toBase62 id ++ "..."),
                                  Effect.fetchTrack id] ++ tr1 ++ tr2 ++
                                  [Effect.logDebug (formatsDebugLine track.files)] ++
                                  [Effect.keyRequest track.id fid, Effect.openAudio fid],
                                  track, artists, key, fid, ?_, by simp [hfe], ?_⟩
                                · refine mem_append_nd hpre_nd ?_
                                  intro e he
                                  simp at he
                                  rcases he with rfl | rfl <;> rfl
                                · rw [hrdd]
                        · rw [if_neg hopen]
                          left
                          refine mem_append_nd hpre_nd ?_
                          intro e he
                          simp at he
                          rcases he with rfl | rfl <;> rfl

/-- Every run of processEpisode either performs no audio-phase effect,
or splits into a metadata prefix without audio-phase effects followed
by the read/decrypt/deliver phase, entered only with the (unsanitized)
derived filename absent. -/
theorem processEpisode_shape (env : Env) (helper : Option String) (id : Nat) :
    (∀ e ∈ (processEpisode env helper id).1, isDeliveryEffect e = false) ∨
    ∃ pre ep sh key fid,
      (∀ e ∈ pre, isDeliveryEffect e = false) ∧
      env.fileExists (episodeFname sh ep) = false ∧
      processEpisode env helper id =
        (pre ++ (episodeReadDecryptDeliver env helper id ep sh key fid (episodeFname sh ep)).1,
          (episodeReadDecryptDeliver env helper id ep sh key fid (episodeFname sh ep)).2) := by
  unfold processEpisode
  cases hm : env.episodeMeta id
  · left
    intro e he
    simp at he
    rcases he with rfl | rfl <;> rfl
  · rename_i ep
    dsimp only
    have havail_nd : ∀ e ∈ (if ep.available then ([] : Trace)
        else [Effect.logWarn ("Episode " ++ env.toBase62 id ++ " is not available.")]),
        isDeliveryEffect e = false := by
      split
      · intro e he; simp at he
      · intro e he; simp at he; subst he; rfl
    cases hsh : env.showMeta ep.showId
    · left
      refine mem_append_nd (mem_append_nd ?_ havail_nd) ?_
      · intro e he
        simp at he
        rcases he with rfl | rfl <;> rfl
      · intro e he
        simp at he
        subst he
        rfl
    · rename_i sh
      dsimp only
      have hpre_nd : ∀ e ∈ ([Effect.logInfo ("Getting episode " ++ env.toBase62 id ++ "..."),
          Effect.fetchEpisode id] ++
          (if ep.available then ([] : Trace)
            else [Effect.logWarn ("Episode " ++ env.toBase62 id ++ " is not available.")]) ++
          [Effect.fetchShow ep.showId, Effect.logDebug (formatsDebugLine ep.files)] : Trace),
          isDeliveryEffect e = false := by
        refine mem_append_nd (mem_append_nd ?_ havail_nd) ?_
        · intro e he
          simp at he
          rcases he with rfl | rfl <;> rfl
        · intro e he
          simp at he
          rcases he with rfl | rfl <;> rfl
      cases hpick : pickFile ep.files
      · left
        exact hpre_nd
      · rename_i fid
        dsimp only
        cases hkey : env.audioKey ep.id fid
        · left
          refine mem_append_nd hpre_nd ?_
          intro e he
          simp at he
          subst he
          rfl
        · rename_i key
          dsimp only
          by_cases hopen : env.openOk fid
          · rw [if_pos hopen]
            by_cases hfe : env.fileExists (episodeFname sh ep)
            · rw [if_pos hfe]
              left
              refine mem_append_nd (mem_append_nd hpre_nd ?_) ?_
              · intro e he
                simp at he
                rcases he with rfl | rfl <;> rfl
              · intro e he
                simp at he
                subst he
                rfl
            · rw [if_neg hfe]
              right
              cases hrdd : episodeReadDecryptDeliver env helper id ep sh key fid (episodeFname sh ep) with
              | mk tr3 o =>
                  refine ⟨[Effect.logInfo ("Getting episode " ++ env.toBase62 id ++ "..."),
                    Effect.fetchEpisode id] ++
                    (if ep.available then ([] : Trace)
                      else [Effect.logWarn ("Episode " ++ env.toBase62 id ++ " is not available.")]) ++
                    [Effect.fetchShow ep.showId, Effect.logDebug (formatsDebugLine ep.files)] ++
                    [Effect.keyRequest ep.id fid, Effect.openAudio fid],
                    ep, sh, key, fid, ?_, by simp [hfe], ?_⟩
                  · refine mem_append_nd hpre_nd ?_
                    intro e he
                    simp at he
                    rcases he with rfl | rfl <;> rfl
                  · rw [hrdd]
          · rw [if_neg hopen]
            left
            refine mem_append_nd hpre_nd ?_
            intro e he
            simp at he
            rcases he with rfl | rfl <;> rfl

theorem mem_delivery_right {pre l : Trace} {e : Effect}
    (hnd : ∀ x ∈ pre, isDeliveryEffect x = false)
    (hde : isDeliveryEffect e = true) (h : e ∈ pre ++ l) : e ∈ l := by
  rcases List.mem_append.mp h with h2 | h2
  · rw [hnd e h2] at hde
    cases hde
  · exact h2

/-- "The bytes delivered are exactly the decrypted buffer with its
first n bytes removed, on every delivery path": whenever one item's
processing decrypts a buffer and delivers bytes (file write or helper
stdin), the delivered bytes are the buffer minus its first n bytes. -/
def StripsPrefixAt (n : Nat) : Prop :=
  ∀ (env : Env) (helper : Option String) (id : Nat) (kind : String)
    (plain : List Nat) (f : String) (b : List Nat),
    Effect.decrypted plain ∈ (processItem env helper id kind).1 →
    (Effect.writeFile f b ∈ (processItem env helper id kind).1 ∨
      Effect.pipeWrite b ∈ (processItem env helper id kind).1) →
    b = plain.drop n

/-- Claim C2 (amended): on every delivery path, for tracks and
episodes, in file mode and helper mode, the delivered bytes are the
decrypted buffer with its first 167 bytes (0xa7) removed - not 161 as
the specification states. -/
theorem claim_C2_amended : StripsPrefixAt 167 := by
  intro env helper id kind plain f b hd hw
  unfold processItem at hd hw
  by_cases hk : kind = "track"
  · rw [if_pos hk] at hd hw
    rcases processTrack_shape env helper id with hsh | ⟨pre, track, artists, key, fid, hnd, hfe, heq⟩
    · exact absurd (hsh _ hd) (by simp [isDeliveryEffect])
    · rw [heq] at hd hw
      dsimp only at hd hw
      have hd2 := mem_delivery_right hnd (by rfl) hd
      rcases hw with hw | hw
      · exact trackRDD_bytes env helper id track artists key fid plain f b hd2
          (Or.inl (mem_delivery_right hnd (by rfl) hw))
      · exact trackRDD_bytes env helper id track artists key fid plain f b hd2
          (Or.inr (mem_delivery_right hnd (by rfl) hw))
  · rw [if_neg hk] at hd hw
    by_cases hk2 : kind = "episode"
    · rw [if_pos hk2] at hd hw
      rcases processEpisode_shape env helper id with hsh | ⟨pre, ep, sh, key, fid, hnd, hfe, heq⟩
      · exact absurd (hsh _ hd) (by simp [isDeliveryEffect])
      · rw [heq] at hd hw
        dsimp only at hd hw
        have hd2 := mem_delivery_right hnd (by rfl) hd
        rcases hw with hw | hw
        · exact episodeRDD_bytes env helper id ep sh key fid (episodeFname sh ep) plain f b hd2
            (Or.inl (mem_delivery_right hnd (by rfl) hw))
        · exact episodeRDD_bytes env helper id ep sh key fid (episodeFname sh ep) plain f b hd2
            (Or.inr (mem_delivery_right hnd (by rfl) hw))
    · rw [if_neg hk2] at hd
      simp at hd

set_option maxRecDepth 16384

/-- A base environment where every external request fails or is
absent; counterexample environments override single fields. -/
def emptyEnv : Env where
  trackMeta := fun _ => none
  episodeMeta := fun _ => none
  artistName := fun _ => none
  albumMeta := fun _ => none
  showMeta := fun _ => none
  playlistMeta := fun _ => none
  audioKey := fun _ _ => none
  openOk := fun _ => false
  readStream := fun _ => none
  decrypt := fun _ _ => none
  fileExists := fun _ => false
  writeOk := fun _ _ => false
  spawnOk := fun _ _ => false
  pipeWriteOk := fun _ => false
  waitResult := fun _ _ => none
  sanitize := fun s => s
  toBase62 := fun n => toString n

/-- A session in which track 1 (no artists, one OGG_VORBIS_320 file)
is fetched, keyed, streamed (200 bytes) and decrypted to the identical
200-byte buffer, and the file write succeeds: a complete file-mode
delivery. -/
def envC2 : Env :=
  { emptyEnv with
    trackMeta := fun i =>
      if i = 1 then some ⟨1, "T", true, [(FileFormat.OGG_VORBIS_320, 10)], [], 0, []⟩
      else none
    audioKey := fun i f => if i = 1 then (if f = 10 then some 9 else none) else none
    openOk := fun _ => true
    readStream := fun f => if f = 10 then some (List.range 200) else none
    decrypt := fun _ b => some b
    writeOk := fun _ _ => true }

/-- Counterexample to claim C2 as stated: in a completed file-mode
track delivery the written bytes are the decrypted buffer minus 167
bytes, which differs from the buffer minus 161 bytes. -/
theorem claim_C2_counterexample : ¬ StripsPrefixAt 161 := by
  intro h
  have := h envC2 none 1 "track" (List.range 200) " - T.ogg"
    ((List.range 200).drop 167) (by decide) (Or.inl (by decide))
  exact absurd this (by decide)

/-- Witness: the amended theorem applied to the concrete delivery of
envC2. -/
theorem claim_C2_witness :
    Effect.decrypted (List.range 200) ∈ (processItem envC2 none 1 "track").1 ∧
      Effect.writeFile " - T.ogg" ((List.range 200).drop 167) ∈
        (processItem envC2 none 1 "track").1 ∧
      ((List.range 200).drop 167 : List Nat) = (List.range 200).drop 167 :=
  ⟨by decide, by decide,
    claim_C2_amended envC2 none 1 "track" (List.range 200) " - T.ogg"
      ((List.range 200).drop 167) (by decide) (Or.inl (by decide))⟩

/-- Claim C9: on every delivery path the decrypted buffer is sliced
from fixed offset 0xa7 = 167 with no length guard: a decrypted stream
shorter than 167 bytes makes the item end in a panic (fatal outcome),
with nothing written to a file and nothing piped to a helper. -/
theorem claim_C9_short_buffer_panics :
    ∀ (env : Env) (helper : Option String) (id : Nat) (kind : String) (plain : List Nat),
      Effect.decrypted plain ∈ (processItem env helper id kind).1 →
      plain.length < 167 →
      (∃ m, (processItem env helper id kind).2 = Outcome.fatal m) ∧
        (∀ f b, Effect.writeFile f b ∉ (processItem env helper id kind).1) ∧
        (∀ b, Effect.pipeWrite b ∉ (processItem env helper id kind).1) := by
  intro env helper id kind plain hd hlen
  unfold processItem at hd ⊢
  by_cases hk : kind = "track"
  · rw [if_pos hk] at hd ⊢
    rcases processTrack_shape env helper id with hsh | ⟨pre, track, artists, key, fid, hnd, hfe, heq⟩
    · exact absurd (hsh _ hd) (by simp [isDeliveryEffect])
    · rw [heq] at hd ⊢
      dsimp only at hd ⊢
      have hd2 := mem_delivery_right hnd (by rfl) hd
      have hshort := trackRDD_short env helper id track artists key fid plain hfe hd2 hlen
      refine ⟨hshort.1, ?_, ?_⟩
      · intro f b hb
        exact hshort.2.1 f b (mem_delivery_right hnd (by rfl) hb)
      · intro b hb
        exact hshort.2.2 b (mem_delivery_right hnd (by rfl) hb)
  · rw [if_neg hk] at hd ⊢
    by_cases hk2 : kind = "episode"
    · rw [if_pos hk2] at hd ⊢
      rcases processEpisode_shape env helper id with hsh | ⟨pre, ep, sh, key, fid, hnd, hfe, heq⟩
      · exact absurd (hsh _ hd) (by simp [isDeliveryEffect])
      · rw [heq] at hd ⊢
        dsimp only at hd ⊢
        have hd2 := mem_delivery_right hnd (by rfl) hd
        have hshort := episodeRDD_short env helper id ep sh key fid (episodeFname sh ep)
          plain hfe hd2 hlen
        refine ⟨hshort.1, ?_, ?_⟩
        · intro f b hb
          exact hshort.2.1 f b (mem_delivery_right hnd (by rfl) hb)
        · intro b hb
          exact hshort.2.2 b (mem_delivery_right hnd (by rfl) hb)
    · rw [if_neg hk2] at hd
      simp at hd

/-- envC2 with a decryption that produces only 3 bytes: shorter than
the 167-byte header the code slices away. -/
def envC9 : Env := { envC2 with decrypt := fun _ _ => some [1, 2, 3] }

/-- Witness: with a 3-byte decrypted buffer the concrete run ends
fatal and delivers nothing. -/
theorem claim_C9_witness :
    Effect.decrypted [1, 2, 3] ∈ (processItem envC9 none 1 "track").1 ∧
      ((∃ m, (processItem envC9 none 1 "track").2 = Outcome.fatal m) ∧
        (∀ f b, Effect.writeFile f b ∉ (processItem envC9 none 1 "track").1) ∧
        (∀ b, Effect.pipeWrite b ∉ (processItem envC9 none 1 "track").1)) :=
  ⟨by decide,
    claim_C9_short_buffer_panics envC9 none 1 "track" [1, 2, 3] (by decide) (by decide)⟩

/-- Claim C1 as stated: for an item whose derived output filename
exists when the item is processed, no audio key request, no audio
stream open and no decryption occur, and the item ends Skipped-Exists;
on both the track and the episode path. -/
def ExistsShortCircuitStated : Prop :=
  (∀ (env : Env) (helper : Option String) (id : Nat) (t : TrackMeta)
      (tr2 : Trace) (artists : List String),
    env.trackMeta id = some t → t.available = true →
    fetchArtists env t.artists = (tr2, Except.ok artists) →
    env.fileExists (trackFname env artists t.name) = true →
    (∀ i f2, Effect.keyRequest i f2 ∉ (processTrack env helper id).1) ∧
    (∀ f2, Effect.openAudio f2 ∉ (processTrack env helper id).1) ∧
    (∀ p, Effect.decrypted p ∉ (processTrack env helper id).1) ∧
    (processTrack env helper id).2 = Outcome.skippedExists) ∧
  (∀ (env : Env) (helper : Option String) (id : Nat) (ep : EpisodeMeta) (sh : ShowMeta),
    env.episodeMeta id = some ep →
    env.showMeta ep.showId = some sh →
    env.fileExists (episodeFname sh ep) = true →
    (∀ i f2, Effect.keyRequest i f2 ∉ (processEpisode env helper id).1) ∧
    (∀ f2, Effect.openAudio f2 ∉ (processEpisode env helper id).1) ∧
    (∀ p, Effect.decrypted p ∉ (processEpisode env helper id).1) ∧
    (processEpisode env helper id).2 = Outcome.skippedExists)

/-- envC2 with the output file already present on disk. -/
def envC1 : Env := { envC2 with fileExists := fun _ => true }

/-- Counterexample to claim C1 as stated: with the file present the
item is skipped, but the audio key request (and stream open) has
already been issued, because the existence check comes after key
negotiation and stream open in main.rs. -/
theorem claim_C1_counterexample : ¬ ExistsShortCircuitStated := by
  intro h
  have h1 := h.1 envC1 none 1 ⟨1, "T", true, [(FileFormat.OGG_VORBIS_320, 10)], [], 0, []⟩
    [] [] rfl rfl rfl rfl
  exact absurd (by decide : Effect.keyRequest 1 10 ∈ (processTrack envC1 none 1).1)
    (h1.1 1 10)

/-- Claim C1 (amended): when the derived output filename already
exists, the audio phase is skipped - no stream read, no decryption, no
write, no helper spawn or pipe - and the item ends Skipped-Exists; but
the audio key request and the audio stream open have already been
performed before the existence check, on both paths. -/
theorem claim_C1_amended :
    (∀ (env : Env) (helper : Option String) (id : Nat) (t : TrackMeta)
        (tr1 : Trace) (track : TrackMeta) (tr2 : Trace) (artists : List String)
        (key fid : Nat),
      env.trackMeta id = some t →
      resolveTrack env id t = (tr1, Except.ok track) →
      fetchArtists env track.artists = (tr2, Except.ok artists) →
      pickFile track.files = some fid →
      env.audioKey track.id fid = some key →
      env.openOk fid = true →
      env.fileExists (trackFname env artists track.name) = true →
      (∀ e ∈ (processTrack env helper id).1, isDeliveryEffect e = false) ∧
      Effect.keyRequest track.id fid ∈ (processTrack env helper id).1 ∧
      Effect.openAudio fid ∈ (processTrack env helper id).1 ∧
      (processTrack env helper id).2 = Outcome.skippedExists) ∧
    (∀ (env : Env) (helper : Option String) (id : Nat) (ep : EpisodeMeta)
        (sh : ShowMeta) (key fid : Nat),
      env.episodeMeta id = some ep →
      env.showMeta ep.showId = some sh →
      pickFile ep.files = some fid →
      env.audioKey ep.id fid = some key →
      env.openOk fid = true →
      env.fileExists (episodeFname sh ep) = true →
      (∀ e ∈ (processEpisode env helper id).1, isDeliveryEffect e = false) ∧
      Effect.keyRequest ep.id fid ∈ (processEpisode env helper id).1 ∧
      Effect.openAudio fid ∈ (processEpisode env helper id).1 ∧
      (processEpisode env helper id).2 = Outcome.skippedExists) := by
  constructor
  · intro env helper id t tr1 track tr2 artists key fid hmeta hres hart hpick hkey hopen hfe
    have hres_nd := resolveTrack_effects env id t
    rw [hres] at hres_nd
    have hart_nd := fetchArtists_effects env track.artists
    rw [hart] at hart_nd
    unfold processTrack
    rw [hmeta]
    dsimp only
    rw [hres]
    dsimp only
    rw [hart]
    dsimp only
    rw [hpick]
    dsimp only
    rw [hkey]
    dsimp only
    rw [hopen]
    rw [if_pos rfl, if_pos hfe]
    refine ⟨?_, by simp, by simp, rfl⟩
    refine mem_append_nd (mem_append_nd (mem_append_nd (mem_append_nd (mem_append_nd ?_ hres_nd) hart_nd) ?_) ?_) ?_
    · intro e he
      simp at he
      rcases he with rfl | rfl <;> rfl
    · intro e he
      simp at he
      subst he
      rfl
    · intro e he
      simp at he
      rcases he with rfl | rfl <;> rfl
    · intro e he
      simp at he
      subst he
      rfl
  · intro env helper id ep sh key fid hmeta hsh hpick hkey hopen hfe
    unfold processEpisode
    rw [hmeta]
    dsimp only
    rw [hsh]
    dsimp only
    rw [hpick]
    dsimp only
    rw [hkey]
    dsimp only
    rw [hopen]
    rw [if_pos rfl, if_pos hfe]
    refine ⟨?_, by simp, by simp, rfl⟩
    have havail_nd : ∀ e ∈ (if ep.available then ([] : Trace)
        else [Effect.logWarn ("Episode " ++ env.toBase62 id ++ " is not available.")]),
        isDeliveryEffect e = false := by
      split
      · intro e he; simp at he
      · intro e he; simp at he; subst he; rfl
    refine mem_append_nd (mem_append_nd (mem_append_nd (mem_append_nd ?_ havail_nd) ?_) ?_) ?_
    · intro e he
      simp at he
      rcases he with rfl | rfl <;> rfl
    · intro e he
      simp at he
      rcases he with rfl | rfl <;> rfl
    · intro e he
      simp at he
      rcases he with rfl | rfl <;> rfl
    · intro e he
      simp at he
      subst he
      rfl

/-- Witness: in envC1 the track's key request and stream open are in
the trace and the outcome is Skipped-Exists. -/
theorem claim_C1_witness :
    Effect.keyRequest 1 10 ∈ (processTrack envC1 none 1).1 ∧
      Effect.openAudio 10 ∈ (processTrack envC1 none 1).1 ∧
      (processTrack envC1 none 1).2 = Outcome.skippedExists := by
  have h := claim_C1_amended.1 envC1 none 1
    ⟨1, "T", true, [(FileFormat.OGG_VORBIS_320, 10)], [], 0, []⟩ []
    ⟨1, "T", true, [(FileFormat.OGG_VORBIS_320, 10)], [], 0, []⟩ [] [] 9 10
    rfl rfl rfl rfl rfl rfl rfl
  exact ⟨h.2.1, h.2.2.1, h.2.2.2⟩

theorem sliceFrom_ok_of_le (n : Nat) (buf : List Nat) (h : n ≤ buf.length) :
    sliceFrom n buf = Except.ok (buf.drop n) := by
  unfold sliceFrom
  rw [if_pos h]

/-- The file-mode track delivery trace in the full-success case. -/
theorem trackDeliverFile_success (env : Env) (artists : List String) (nm : String)
    (plain : List Nat)
    (hfe : env.fileExists (trackFname env artists nm) = false)
    (hlen : 167 ≤ plain.length)
    (hwo : env.writeOk (trackFname env artists nm) (plain.drop 167) = true) :
    trackDeliverFile env artists nm plain =
      ([Effect.writeFile (trackFname env artists nm) (plain.drop 167),
        Effect.logInfo ("Filename: " ++ trackFname env artists nm)],
        Outcome.delivered) := by
  unfold trackDeliverFile
  dsimp only
  rw [if_neg (by rw [hfe]; exact Bool.false_ne_true), sliceFrom_ok_of_le 167 plain hlen]
  dsimp only
  rw [hwo]
  rw [if_pos rfl]

/-- The file-mode episode delivery trace in the full-success case. -/
theorem episodeDeliverFile_success (env : Env) (fname : String) (plain : List Nat)
    (hfe : env.fileExists fname = false)
    (hlen : 167 ≤ plain.length)
    (hwo : env.writeOk fname (plain.drop 167) = true) :
    episodeDeliverFile env fname plain =
      ([Effect.writeFile fname (plain.drop 167),
        Effect.logInfo ("Filename: " ++ fname)],
        Outcome.delivered) := by
  unfold episodeDeliverFile
  rw [if_neg (by rw [hfe]; exact Bool.false_ne_true), sliceFrom_ok_of_le 167 plain hlen]
  dsimp only
  rw [hwo]
  rw [if_pos rfl]

/-- Claim C7 as stated: the derived output filename is the sanitized
form of "group - title.ogg" on both paths; in particular the file
written on the episode path is named by the sanitized string. -/
def SanitizedNamesStated : Prop :=
  (∀ (env : Env) (id : Nat) (t : TrackMeta) (tr1 : Trace) (track : TrackMeta)
      (tr2 : Trace) (artists : List String) (key fid : Nat) (buf plain : List Nat),
    env.trackMeta id = some t →
    resolveTrack env id t = (tr1, Except.ok track) →
    fetchArtists env track.artists = (tr2, Except.ok artists) →
    pickFile track.files = some fid →
    env.audioKey track.id fid = some key →
    env.openOk fid = true →
    env.fileExists (trackFname env artists track.name) = false →
    env.readStream fid = some buf →
    env.decrypt key buf = some plain →
    env.writeOk (trackFname env artists track.name) (plain.drop 167) = true →
    167 ≤ plain.length →
    Effect.writeFile
      (env.sanitize (String.intercalate ", " artists ++ " - " ++ track.name ++ ".ogg"))
      (plain.drop 167) ∈ (processTrack env none id).1) ∧
  (∀ (env : Env) (id : Nat) (ep : EpisodeMeta) (sh : ShowMeta) (key fid : Nat)
      (buf plain : List Nat),
    env.episodeMeta id = some ep →
    env.showMeta ep.showId = some sh →
    pickFile ep.files = some fid →
    env.audioKey ep.id fid = some key →
    env.openOk fid = true →
    (∀ s, env.fileExists s = false) →
    env.readStream fid = some buf →
    env.decrypt key buf = some plain →
    (∀ s bs, env.writeOk s bs = true) →
    167 ≤ plain.length →
    Effect.writeFile
      (env.sanitize (sh.publisher ++ " - " ++ ep.name ++ ".ogg"))
      (plain.drop 167) ∈ (processEpisode env none id).1)

/-- Claim C7 (amended): the track filename is the sanitized
"artists - title.ogg" string (artists joined with ", "), but the
episode filename is the raw, unsanitized "publisher - title.ogg"
string: sanitization is applied only on the track path. -/
theorem claim_C7_amended :
    (∀ (env : Env) (id : Nat) (t : TrackMeta) (tr1 : Trace) (track : TrackMeta)
        (tr2 : Trace) (artists : List String) (key fid : Nat) (buf plain : List Nat),
      env.trackMeta id = some t →
      resolveTrack env id t = (tr1, Except.ok track) →
      fetchArtists env track.artists = (tr2, Except.ok artists) →
      pickFile track.files = some fid →
      env.audioKey track.id fid = some key →
      env.openOk fid = true →
      env.fileExists (trackFname env artists track.name) = false →
      env.readStream fid = some buf →
      env.decrypt key buf = some plain →
      env.writeOk (trackFname env artists track.name) (plain.drop 167) = true →
      167 ≤ plain.length →
      Effect.writeFile
        (env.sanitize (String.intercalate ", " artists ++ " - " ++ track.name ++ ".ogg"))
        (plain.drop 167) ∈ (processTrack env none id).1) ∧
    (∀ (env : Env) (id : Nat) (ep : EpisodeMeta) (sh : ShowMeta) (key fid : Nat)
        (buf plain : List Nat),
      env.episodeMeta id = some ep →
      env.showMeta ep.showId = some sh →
      pickFile ep.files = some fid →
      env.audioKey ep.id fid = some key →
      env.openOk fid = true →
      (∀ s, env.fileExists s = false) →
      env.readStream fid = some buf →
      env.decrypt key buf = some plain →
      (∀ s bs, env.writeOk s bs = true) →
      167 ≤ plain.length →
      Effect.writeFile (sh.publisher ++ " - " ++ ep.name ++ ".ogg")
        (plain.drop 167) ∈ (processEpisode env none id).1) := by
  constructor
  · intro env id t tr1 track tr2 artists key fid buf plain
      hmeta hres hart hpick hkey hopen hfe hread hdec hwo hlen
    have hTDF := trackDeliverFile_success env artists track.name plain hfe hlen hwo
    have hRDD : trackReadDecryptDeliver env none id track artists key fid =
        ([Effect.readStream fid, Effect.decrypted plain,
          Effect.writeFile (trackFname env artists track.name) (plain.drop 167),
          Effect.logInfo ("Filename: " ++ trackFname env artists track.name)],
          Outcome.delivered) := by
      unfold trackReadDecryptDeliver
      rw [hread]
      dsimp only
      rw [hdec]
      dsimp only
      rw [hTDF]
    unfold processTrack
    rw [hmeta]
    dsimp only
    rw [hres]
    dsimp only
    rw [hart]
    dsimp only
    rw [hpick]
    dsimp only
    rw [hkey]
    dsimp only
    rw [hopen]
    rw [if_pos rfl, if_neg (by rw [hfe]; exact Bool.false_ne_true), hRDD]
    dsimp only
    show Effect.writeFile (trackFname env artists track.name) (plain.drop 167) ∈ _
    simp
  · intro env id ep sh key fid buf plain
      hmeta hsh hpick hkey hopen hfe hread hdec hwo hlen
    have hEDF := episodeDeliverFile_success env (episodeFname sh ep) plain
      (hfe _) hlen (hwo _ _)
    have hRDD : episodeReadDecryptDeliver env none id ep sh key fid (episodeFname sh ep) =
        ([Effect.readStream fid, Effect.decrypted plain,
          Effect.writeFile (episodeFname sh ep) (plain.drop 167),
          Effect.logInfo ("Filename: " ++ episodeFname sh ep)],
          Outcome.delivered) := by
      unfold episodeReadDecryptDeliver
      rw [hread]
      dsimp only
      rw [hdec]
      dsimp only
      rw [hEDF]
    unfold processEpisode
    rw [hmeta]
    dsimp only
    rw [hsh]
    dsimp only
    rw [hpick]
    dsimp only
    rw [hkey]
    dsimp only
    rw [hopen]
    rw [if_pos rfl, if_neg (by rw [hfe (episodeFname sh ep)]; exact Bool.false_ne_true), hRDD]
    dsimp only
    show Effect.writeFile (episodeFname sh ep) (plain.drop 167) ∈ _
    simp

/-- A session delivering episode 1 of show 5 ("Pod" by "Pub") in file
mode, under a sanitizer that maps every string to "SAN": the written
file keeps the raw name, showing no sanitization happens on the
episode path. -/
def envC7 : Env :=
  { emptyEnv with
    episodeMeta := fun i =>
      if i = 1 then some ⟨1, "E", true, [(FileFormat.OGG_VORBIS_320, 10)], 5⟩
      else none
    showMeta := fun s => if s = 5 then some ⟨"Pod", "Pub", [1]⟩ else none
    audioKey := fun i f => if i = 1 then (if f = 10 then some 9 else none) else none
    openOk := fun _ => true
    readStream := fun f => if f = 10 then some (List.range 200) else none
    decrypt := fun _ b => some b
    writeOk := fun _ _ => true
    sanitize := fun _ => "SAN" }

/-- Counterexample to claim C7 as stated: in envC7 the episode delivery
writes "Pub - E.ogg", not the sanitizer's output "SAN". -/
theorem claim_C7_counterexample : ¬ SanitizedNamesStated := by
  intro h
  have h2 := h.2 envC7 1 ⟨1, "E", true, [(FileFormat.OGG_VORBIS_320, 10)], 5⟩
    ⟨"Pod", "Pub", [1]⟩ 9 10 (List.range 200) (List.range 200)
    rfl rfl rfl rfl rfl (fun _ => rfl) rfl rfl (fun _ _ => rfl) (by decide)
  exact absurd h2 (by decide)

/-- Witness: the amended theorem applied to envC7's episode delivery
(raw episode filename) and to a file-mode track delivery in envC2
(sanitized track filename). -/
theorem claim_C7_witness :
    Effect.writeFile ("Pub - E.ogg") ((List.range 200).drop 167) ∈
      (processEpisode envC7 none 1).1 ∧
    Effect.writeFile (envC2.sanitize (String.intercalate ", " [] ++ " - " ++ "T" ++ ".ogg"))
      ((List.range 200).drop 167) ∈ (processTrack envC2 none 1).1 :=
  ⟨claim_C7_amended.2 envC7 1 ⟨1, "E", true, [(FileFormat.OGG_VORBIS_320, 10)], 5⟩
      ⟨"Pod", "Pub", [1]⟩ 9 10 (List.range 200) (List.range 200)
      rfl rfl rfl rfl rfl (fun _ => rfl) rfl rfl (fun _ _ => rfl) (by decide),
    claim_C7_amended.1 envC2 1 ⟨1, "T", true, [(FileFormat.OGG_VORBIS_320, 10)], [], 0, []⟩
      [] ⟨1, "T", true, [(FileFormat.OGG_VORBIS_320, 10)], [], 0, []⟩ [] [] 9 10
      (List.range 200) (List.range 200)
      rfl rfl rfl rfl rfl rfl rfl rfl rfl rfl (by decide)⟩

theorem spawnPipeWait_success (env : Env) (path : String) (args : List String)
    (plain : List Nat)
    (hsp : env.spawnOk path args = true)
    (hlen : 167 ≤ plain.length)
    (hpw : env.pipeWriteOk (plain.drop 167) = true)
    (hwait : env.waitResult path args = some true) :
    spawnPipeWait env path args plain =
      ([Effect.spawnHelper path args, Effect.pipeWrite (plain.drop 167)],
        Outcome.delivered) := by
  unfold spawnPipeWait
  rw [hsp]
  rw [if_pos rfl, sliceFrom_ok_of_le 167 plain hlen]
  dsimp only
  rw [hpw]
  rw [if_pos rfl, hwait]

theorem trackDeliverHelper_success (env : Env) (hp : String) (origId : Nat)
    (track : TrackMeta) (artists : List String) (plain : List Nat) (album : AlbumMeta)
    (halb : env.albumMeta track.album = some album)
    (hsp : env.spawnOk hp ([env.toBase62 origId, track.name, album.name] ++ artists) = true)
    (hlen : 167 ≤ plain.length)
    (hpw : env.pipeWriteOk (plain.drop 167) = true)
    (hwait : env.waitResult hp ([env.toBase62 origId, track.name, album.name] ++ artists) =
      some true) :
    trackDeliverHelper env hp origId track artists plain =
      ([Effect.fetchAlbum track.album,
        Effect.spawnHelper hp ([env.toBase62 origId, track.name, album.name] ++ artists),
        Effect.pipeWrite (plain.drop 167)],
        Outcome.delivered) := by
  unfold trackDeliverHelper
  rw [halb]
  dsimp only
  rw [spawnPipeWait_success env hp _ plain hsp hlen hpw hwait]

theorem resolveTrack_found (env : Env) (id : Nat) (t : TrackMeta) (trA : Trace)
    (alt : TrackMeta)
    (hav : t.available = false)
    (hfa : findAlt env t.alternatives = (trA, Except.ok (some alt))) :
    resolveTrack env id t =
      ([Effect.logWarn ("Track " ++ env.toBase62 id ++ " is not available, finding alternative...")] ++
        trA ++
        [Effect.logWarn ("Found track alternative " ++ env.toBase62 id ++ " -> " ++
          env.toBase62 alt.id)],
        Except.ok alt) := by
  unfold resolveTrack
  rw [if_neg (by rw [hav]; exact Bool.false_ne_true), hfa]

theorem resolveTrack_err (env : Env) (id : Nat) (t : TrackMeta) (trA : Trace)
    (e : String)
    (hav : t.available = false)
    (hfa : findAlt env t.alternatives = (trA, Except.error e)) :
    resolveTrack env id t =
      ([Effect.logWarn ("Track " ++ env.toBase62 id ++ " is not available, finding alternative...")] ++
        trA, Except.error e) := by
  unfold resolveTrack
  rw [if_neg (by rw [hav]; exact Bool.false_ne_true), hfa]

theorem resolveTrack_exhausted (env : Env) (id : Nat) (t : TrackMeta) (trA : Trace)
    (hav : t.available = false)
    (hfa : findAlt env t.alternatives = (trA, Except.ok none)) :
    resolveTrack env id t =
      ([Effect.logWarn ("Track " ++ env.toBase62 id ++ " is not available, finding alternative...")] ++
        trA,
        Except.error ("Could not find alternative for track " ++ env.toBase62 id)) := by
  unfold resolveTrack
  rw [if_neg (by rw [hav]; exact Bool.false_ne_true), hfa]

theorem processTrack_fatal_of_resolve (env : Env) (helper : Option String) (id : Nat)
    (t : TrackMeta) (tr1 : Trace) (e : String)
    (hmeta : env.trackMeta id = some t)
    (hres : resolveTrack env id t = (tr1, Except.error e)) :
    processTrack env helper id =
      ([Effect.logInfo ("Getting track " ++ env.toBase62 id ++ "..."),
        Effect.fetchTrack id] ++ tr1, Outcome.fatal e) := by
  unfold processTrack
  rw [hmeta]
  dsimp only
  rw [hres]

theorem findAlt_first_available (env : Env) :
    ∀ (l : List Nat) (tr : Trace) (alt : TrackMeta),
      findAlt env l = (tr, Except.ok (some alt)) →
      ∃ i, ∃ h : i < l.length,
        env.trackMeta (l.get ⟨i, h⟩) = some alt ∧ alt.available = true ∧
        ∀ j, (hj : j < i) → ∃ tj,
          env.trackMeta (l.get ⟨j, Nat.lt_trans hj h⟩) = some tj ∧
          tj.available = false := by
  intro l
  induction l with
  | nil =>
      intro tr alt h
      unfold findAlt at h
      injection h with h1 h2
      injection h2 with h2
      cases h2
  | cons a rest ih =>
      intro tr alt h
      unfold findAlt at h
      cases hm : env.trackMeta a <;> rw [hm] at h
      · injection h with h1 h2
        cases h2
      · rename_i ta
        dsimp only at h
        by_cases hav : ta.available
        · rw [if_pos hav] at h
          injection h with h1 h2
          injection h2 with h2
          injection h2 with h2
          subst h2
          refine ⟨0, by simp, by simpa using hm, hav, ?_⟩
          intro j hj
          omega
        · rw [if_neg hav] at h
          cases hfa : findAlt env rest with
          | mk tr2 r =>
              rw [hfa] at h
              dsimp only at h
              injection h with h1 h2
              subst h2
              obtain ⟨i, hi, hfound, hava, hbefore⟩ := ih tr2 alt hfa
              refine ⟨i + 1, by simpa using Nat.succ_lt_succ hi, by simpa using hfound,
                hava, ?_⟩
              intro j hj
              cases j with
              | zero =>
                  exact ⟨ta, by simpa using hm, by simpa using hav⟩
              | succ j2 =>
                  have hj2 : j2 < i := by omega
                  obtain ⟨tj, htj, htja⟩ := hbefore j2 hj2
                  exact ⟨tj, by simpa using htj, htja⟩

/-- Claim C4 as stated: when an unavailable track is substituted by
its first available alternative, all subsequent steps use the
alternative's id - in particular every key request uses the
alternative's id AND the helper is invoked with the alternative's id
as its first argument. -/
def AlternativeSubstitutionStated : Prop :=
  ∀ (env : Env) (hp : String) (id : Nat) (t : TrackMeta) (trA : Trace)
    (alt : TrackMeta) (trB : Trace) (artists : List String) (key fid : Nat)
    (buf plain : List Nat) (album : AlbumMeta),
    env.trackMeta id = some t →
    t.available = false →
    findAlt env t.alternatives = (trA, Except.ok (some alt)) →
    fetchArtists env alt.artists = (trB, Except.ok artists) →
    pickFile alt.files = some fid →
    env.audioKey alt.id fid = some key →
    env.openOk fid = true →
    env.fileExists (trackFname env artists alt.name) = false →
    env.readStream fid = some buf →
    env.decrypt key buf = some plain →
    env.albumMeta alt.album = some album →
    (∀ args, env.spawnOk hp args = true) →
    env.pipeWriteOk (plain.drop 167) = true →
    (∀ args, env.waitResult hp args = some true) →
    167 ≤ plain.length →
    (∀ i f2, Effect.keyRequest i f2 ∈ (processTrack env (some hp) id).1 → i = alt.id) ∧
    (∀ p args2, Effect.spawnHelper p args2 ∈ (processTrack env (some hp) id).1 →
      args2.head? = some (env.toBase62 alt.id))

/-- Claim C4 (amended): the first available alternative (in listed
order) is substituted and its id, files and name drive key
negotiation, format selection and naming; any alternative fetch
failure aborts the run, and exhaustion of the alternatives aborts the
run; but the helper process is invoked with the ORIGINAL work-item id
as its first argument (name, album and artists come from the
alternative). -/
theorem claim_C4_amended :
    (∀ (env : Env) (l : List Nat) (tr : Trace) (alt : TrackMeta),
      findAlt env l = (tr, Except.ok (some alt)) →
      ∃ i, ∃ h : i < l.length,
        env.trackMeta (l.get ⟨i, h⟩) = some alt ∧ alt.available = true ∧
        ∀ j, (hj : j < i) → ∃ tj,
          env.trackMeta (l.get ⟨j, Nat.lt_trans hj h⟩) = some tj ∧
          tj.available = false) ∧
    (∀ (env : Env) (helper : Option String) (id : Nat) (t : TrackMeta)
        (trA : Trace) (e : String),
      env.trackMeta id = some t → t.available = false →
      findAlt env t.alternatives = (trA, Except.error e) →
      (processTrack env helper id).2 = Outcome.fatal e) ∧
    (∀ (env : Env) (helper : Option String) (id : Nat) (t : TrackMeta) (trA : Trace),
      env.trackMeta id = some t → t.available = false →
      findAlt env t.alternatives = (trA, Except.ok none) →
      (processTrack env helper id).2 =
        Outcome.fatal ("Could not find alternative for track " ++ env.toBase62 id)) ∧
    (∀ (env : Env) (hp : String) (id : Nat) (t : TrackMeta) (trA : Trace)
        (alt : TrackMeta) (trB : Trace) (artists : List String) (key fid : Nat)
        (buf plain : List Nat) (album : AlbumMeta),
      env.trackMeta id = some t →
      t.available = false →
      findAlt env t.alternatives = (trA, Except.ok (some alt)) →
      fetchArtists env alt.artists = (trB, Except.ok artists) →
      pickFile alt.files = some fid →
      env.audioKey alt.id fid = some key →
      env.openOk fid = true →
      env.fileExists (trackFname env artists alt.name) = false →
      env.readStream fid = some buf →
      env.decrypt key buf = some plain →
      env.albumMeta alt.album = some album →
      (∀ args, env.spawnOk hp args = true) →
      env.pipeWriteOk (plain.drop 167) = true →
      (∀ args, env.waitResult hp args = some true) →
      167 ≤ plain.length →
      processTrack env (some hp) id =
        ([Effect.logInfo ("Getting track " ++ env.toBase62 id ++ "..."),
          Effect.fetchTrack id] ++
          ([Effect.logWarn ("Track " ++ env.toBase62 id ++ " is not available, finding alternative...")] ++
            trA ++
            [Effect.logWarn ("Found track alternative " ++ env.toBase62 id ++ " -> " ++
              env.toBase62 alt.id)]) ++
          trB ++ [Effect.logDebug (formatsDebugLine alt.files)] ++
          [Effect.keyRequest alt.id fid, Effect.openAudio fid] ++
          [Effect.readStream fid, Effect.decrypted plain, Effect.fetchAlbum alt.album,
            Effect.spawnHelper hp ([env.toBase62 id, alt.name, album.name] ++ artists),
            Effect.pipeWrite (plain.drop 167)],
          Outcome.delivered)) := by
  refine ⟨findAlt_first_available, ?_, ?_, ?_⟩
  · intro env helper id t trA e hmeta hav hfa
    rw [processTrack_fatal_of_resolve env helper id t _ e hmeta
      (resolveTrack_err env id t trA e hav hfa)]
  · intro env helper id t trA hmeta hav hfa
    rw [processTrack_fatal_of_resolve env helper id t _ _ hmeta
      (resolveTrack_exhausted env id t trA hav hfa)]
  · intro env hp id t trA alt trB artists key fid buf plain album
      hmeta hav hfa hart hpick hkey hopen hfe hread hdec halb hsp hpw hwait hlen
    have hTDH := trackDeliverHelper_success env hp id alt artists plain album
      halb (hsp _) hlen hpw (hwait _)
    have hRDD : trackReadDecryptDeliver env (some hp) id alt artists key fid =
        ([Effect.readStream fid, Effect.decrypted plain, Effect.fetchAlbum alt.album,
          Effect.spawnHelper hp ([env.toBase62 id, alt.name, album.name] ++ artists),
          Effect.pipeWrite (plain.drop 167)],
          Outcome.delivered) := by
      unfold trackReadDecryptDeliver
      rw [hread]
      dsimp only
      rw [hdec]
      dsimp only
      rw [hTDH]
    unfold processTrack
    rw [hmeta]
    dsimp only
    rw [resolveTrack_found env id t trA alt hav hfa]
    dsimp only
    rw [hart]
    dsimp only
    rw [hpick]
    dsimp only
    rw [hkey]
    dsimp only
    rw [hopen]
    rw [if_pos rfl, if_neg (by rw [hfe]; exact Bool.false_ne_true), hRDD]

/-- Track 1 is unavailable; its only alternative, track 2 ("A2", album
3 "Al"), is available; helper mode with helper path "h"; delivery
succeeds end to end. -/
def envC4 : Env :=
  { emptyEnv with
    trackMeta := fun i =>
      if i = 1 then some ⟨1, "T1", false, [], [], 0, [2]⟩
      else if i = 2 then some ⟨2, "A2", true, [(FileFormat.OGG_VORBIS_320, 10)], [], 3, []⟩
      else none
    albumMeta := fun a => if a = 3 then some ⟨"Al", []⟩ else none
    audioKey := fun i f => if i = 2 then (if f = 10 then some 9 else none) else none
    openOk := fun _ => true
    readStream := fun f => if f = 10 then some (List.range 200) else none
    decrypt := fun _ b => some b
    spawnOk := fun _ _ => true
    pipeWriteOk := fun _ => true
    waitResult := fun _ _ => some true }

/-- Counterexample to claim C4 as stated: in envC4 the substituted
delivery spawns the helper with first argument "1" (the original
work-item id), not "2" (the alternative's id). -/
theorem claim_C4_counterexample : ¬ AlternativeSubstitutionStated := by
  intro h
  have h2 := (h envC4 "h" 1 ⟨1, "T1", false, [], [], 0, [2]⟩ [Effect.fetchTrack 2]
    ⟨2, "A2", true, [(FileFormat.OGG_VORBIS_320, 10)], [], 3, []⟩ [] [] 9 10
    (List.range 200) (List.range 200) ⟨"Al", []⟩
    rfl rfl rfl rfl rfl rfl rfl rfl rfl rfl rfl (fun _ => rfl) rfl (fun _ => rfl)
    (by decide)).2 "h" ["1", "A2", "Al"] (by decide)
  exact absurd h2 (by decide)

/-- Witness: the amended scenario applied to envC4; the helper's
arguments carry the original id "1" with the alternative's name and
album. -/
theorem claim_C4_witness :
    processTrack envC4 (some "h") 1 =
      ([Effect.logInfo ("Getting track " ++ envC4.toBase62 1 ++ "..."),
        Effect.fetchTrack 1] ++
        ([Effect.logWarn ("Track " ++ envC4.toBase62 1 ++ " is not available, finding alternative...")] ++
          [Effect.fetchTrack 2] ++
          [Effect.logWarn ("Found track alternative " ++ envC4.toBase62 1 ++ " -> " ++
            envC4.toBase62 2)]) ++
        [] ++ [Effect.logDebug (formatsDebugLine [(FileFormat.OGG_VORBIS_320, 10)])] ++
        [Effect.keyRequest 2 10, Effect.openAudio 10] ++
        [Effect.readStream 10, Effect.decrypted (List.range 200), Effect.fetchAlbum 3,
          Effect.spawnHelper "h" ([envC4.toBase62 1, "A2", "Al"] ++ []),
          Effect.pipeWrite ((List.range 200).drop 167)],
        Outcome.delivered) :=
  claim_C4_amended.2.2.2 envC4 "h" 1 ⟨1, "T1", false, [], [], 0, [2]⟩ [Effect.fetchTrack 2]
    ⟨2, "A2", true, [(FileFormat.OGG_VORBIS_320, 10)], [], 3, []⟩ [] [] 9 10
    (List.range 200) (List.range 200) ⟨"Al", []⟩
    rfl rfl rfl rfl rfl rfl rfl rfl rfl rfl rfl (fun _ => rfl) rfl (fun _ => rfl)
    (by decide)

theorem lookupW_indexInsert_self (m : WorkList) (k : Nat) (v : String) :
    lookupW (indexInsert m k v) k = some v := by
  unfold indexInsert
  split
  · rename_i hk
    unfold lookupW
    induction m with
    | nil => simp [keysW] at hk
    | cons p rest ih =>
        simp only [List.map_cons, List.find?_cons]
        by_cases hp : p.1 = k
        · simp [hp]
        · rw [if_neg hp]
          have : (decide (p.1 = k)) = false := by simp [hp]
          simp only [this]
          have hk2 : k ∈ keysW rest := by
            simp [keysW] at hk
            rcases hk with h | h
            · exact absurd h.symm hp
            · simpa [keysW] using h
          have := ih hk2
          simpa using this
  · unfold lookupW
    induction m with
    | nil => simp
    | cons p rest ih =>
        rename_i hk
        have hpk : ¬ p.1 = k := by
          intro hpk
          exact hk (by simp [keysW, hpk])
        have hk2 : ¬ k ∈ keysW rest := by
          intro h2
          exact hk (by simp [keysW] at h2 ⊢; exact Or.inr h2)
        simp only [List.cons_append, List.find?_cons]
        have : (decide (p.1 = k)) = false := by simp [hpk]
        simp only [this]
        exact ih hk2

theorem lookupW_indexInsert_other (m : WorkList) (k k2 : Nat) (v2 : String)
    (h : k ≠ k2) : lookupW (indexInsert m k2 v2) k = lookupW m k := by
  unfold indexInsert
  split
  · rename_i hmem
    clear hmem
    unfold lookupW
    congr 1
    induction m with
    | nil => rfl
    | cons p rest ih =>
        simp only [List.map_cons, List.find?_cons]
        by_cases hp2 : p.1 = k2
        · have hpk : ¬ p.1 = k := fun hh => h (hh.symm.trans hp2)
          simp [hp2, hpk, ih, Ne.symm h]
        · by_cases hp : p.1 = k
          · simp [hp2, hp, h]
          · simp [hp2, hp, ih]
  · rename_i hmem
    clear hmem
    unfold lookupW
    congr 1
    induction m with
    | nil => simp [List.find?_cons, Ne.symm h]
    | cons p rest ih =>
        simp only [List.cons_append, List.find?_cons]
        by_cases hp : p.1 = k
        · simp [hp]
        · simp [hp, ih]

theorem lookupW_foldl_const (v : String) (l : List Nat) :
    ∀ (m : WorkList) (k : Nat),
      (lookupW m k = some v ∨ k ∈ l) →
      lookupW (l.foldl (fun m2 t => indexInsert m2 t v) m) k = some v := by
  induction l with
  | nil =>
      intro m k h
      rcases h with h | h
      · exact h
      · simp at h
  | cons a rest ih =>
      intro m k h
      simp only [List.foldl_cons]
      by_cases hk : k = a
      · subst hk
        exact ih (indexInsert m k v) k (Or.inl (lookupW_indexInsert_self m k v))
      · rcases h with h | h
        · exact ih (indexInsert m a v) k
            (Or.inl ((lookupW_indexInsert_other m k a v hk).trans h))
        · rcases List.mem_cons.mp h with h2 | h2
          · exact absurd h2 hk
          · exact ih (indexInsert m a v) k (Or.inr h2)

theorem resolveTrack_avail (env : Env) (id : Nat) (t : TrackMeta)
    (hav : t.available = true) :
    resolveTrack env id t = ([], Except.ok t) := by
  unfold resolveTrack
  rw [if_pos hav]

/-- The full helper-mode track delivery trace under entirely
successful responses. -/
theorem processTrack_helper_success (env : Env) (hp : String) (id : Nat)
    (t : TrackMeta) (tr1 : Trace) (track : TrackMeta) (tr2 : Trace)
    (artists : List String) (key fid : Nat) (buf plain : List Nat) (album : AlbumMeta)
    (hmeta : env.trackMeta id = some t)
    (hres : resolveTrack env id t = (tr1, Except.ok track))
    (hart : fetchArtists env track.artists = (tr2, Except.ok artists))
    (hpick : pickFile track.files = some fid)
    (hkey : env.audioKey track.id fid = some key)
    (hopen : env.openOk fid = true)
    (hfe : env.fileExists (trackFname env artists track.name) = false)
    (hread : env.readStream fid = some buf)
    (hdec : env.decrypt key buf = some plain)
    (halb : env.albumMeta track.album = some album)
    (hsp : env.spawnOk hp ([env.toBase62 id, track.name, album.name] ++ artists) = true)
    (hpw : env.pipeWriteOk (plain.drop 167) = true)
    (hwait : env.waitResult hp ([env.toBase62 id, track.name, album.name] ++ artists) =
      some true)
    (hlen : 167 ≤ plain.length) :
    processTrack env (some hp) id =
      ([Effect.logInfo ("Getting track " ++ env.toBase62 id ++ "..."),
        Effect.fetchTrack id] ++ tr1 ++ tr2 ++
        [Effect.logDebug (formatsDebugLine track.files)] ++
        [Effect.keyRequest track.id fid, Effect.openAudio fid] ++
        [Effect.readStream fid, Effect.decrypted plain, Effect.fetchAlbum track.album,
          Effect.spawnHelper hp ([env.toBase62 id, track.name, album.name] ++ artists),
          Effect.pipeWrite (plain.drop 167)],
        Outcome.delivered) := by
  have hTDH := trackDeliverHelper_success env hp id track artists plain album
    halb hsp hlen hpw hwait
  have hRDD : trackReadDecryptDeliver env (some hp) id track artists key fid =
      ([Effect.readStream fid, Effect.decrypted plain, Effect.fetchAlbum track.album,
        Effect.spawnHelper hp ([env.toBase62 id, track.name, album.name] ++ artists),
        Effect.pipeWrite (plain.drop 167)],
        Outcome.delivered) := by
    unfold trackReadDecryptDeliver
    rw [hread]
    dsimp only
    rw [hdec]
    dsimp only
    rw [hTDH]
  unfold processTrack
  rw [hmeta]
  dsimp only
  rw [hres]
  dsimp only
  rw [hart]
  dsimp only
  rw [hpick]
  dsimp only
  rw [hkey]
  dsimp only
  rw [hopen]
  rw [if_pos rfl, if_neg (by rw [hfe]; exact Bool.false_ne_true), hRDD]

theorem expandRef_album (env : Env) (ids : WorkList) (sid : Nat) (al : AlbumMeta)
    (hal : env.albumMeta sid = some al) :
    expandRef env ids "album" sid =
      ([Effect.fetchAlbum sid],
        Except.ok (al.tracks.foldl (fun m t => indexInsert m t "track") ids)) := by
  unfold expandRef
  rw [if_neg (by decide), if_pos rfl, hal]

/-- Claim C6 as stated: album expansion stores the album's name as
each inserted track's context, and consequently the delivery pipeline
performs no additional album fetch (helper mode) and no additional
show fetch (episodes). -/
def ContextCarriedStated : Prop :=
  (∀ (env : Env) (ids : WorkList) (sid : Nat) (al : AlbumMeta) (tr : Trace)
      (wl : WorkList),
    env.albumMeta sid = some al →
    expandRef env ids "album" sid = (tr, Except.ok wl) →
    ∀ tId ∈ al.tracks, lookupW wl tId = some al.name) ∧
  (∀ (env : Env) (helper : Option String) (id : Nat) (ep : EpisodeMeta),
    env.episodeMeta id = some ep →
    ∀ s, Effect.fetchShow s ∉ (processEpisode env helper id).1) ∧
  (∀ (env : Env) (hp : String) (id : Nat) (t : TrackMeta),
    env.trackMeta id = some t →
    ∀ a, Effect.fetchAlbum a ∉ (processTrack env (some hp) id).1)

/-- Claim C6 (amended): expansion stores only the kind string
("track") as the map value - no album name or show object is carried -
and the pipeline re-fetches: the show is fetched for every episode
whose metadata fetch succeeds, and the album is fetched when a track
is delivered in helper mode. -/
theorem claim_C6_amended :
    (∀ (env : Env) (ids : WorkList) (sid : Nat) (al : AlbumMeta) (tr : Trace)
        (wl : WorkList),
      env.albumMeta sid = some al →
      expandRef env ids "album" sid = (tr, Except.ok wl) →
      ∀ tId ∈ al.tracks, lookupW wl tId = some "track") ∧
    (∀ (env : Env) (helper : Option String) (id : Nat) (ep : EpisodeMeta),
      env.episodeMeta id = some ep →
      Effect.fetchShow ep.showId ∈ (processEpisode env helper id).1) ∧
    (∀ (env : Env) (hp : String) (id : Nat) (t : TrackMeta) (tr1 : Trace)
        (track : TrackMeta) (tr2 : Trace) (artists : List String) (key fid : Nat)
        (buf plain : List Nat) (album : AlbumMeta),
      env.trackMeta id = some t →
      resolveTrack env id t = (tr1, Except.ok track) →
      fetchArtists env track.artists = (tr2, Except.ok artists) →
      pickFile track.files = some fid →
      env.audioKey track.id fid = some key →
      env.openOk fid = true →
      env.fileExists (trackFname env artists track.name) = false →
      env.readStream fid = some buf →
      env.decrypt key buf = some plain →
      env.albumMeta track.album = some album →
      env.spawnOk hp ([env.toBase62 id, track.name, album.name] ++ artists) = true →
      env.pipeWriteOk (plain.drop 167) = true →
      env.waitResult hp ([env.toBase62 id, track.name, album.name] ++ artists) = some true →
      167 ≤ plain.length →
      Effect.fetchAlbum track.album ∈ (processTrack env (some hp) id).1) := by
  refine ⟨?_, ?_, ?_⟩
  · intro env ids sid al tr wl hal hexp tId htid
    rw [expandRef_album env ids sid al hal] at hexp
    injection hexp with h1 h2
    injection h2 with h2
    rw [← h2]
    exact lookupW_foldl_const "track" al.tracks ids tId (Or.inr htid)
  · intro env helper id ep hmeta
    unfold processEpisode
    rw [hmeta]
    dsimp only
    cases hsh : env.showMeta ep.showId
    · simp
    · rename_i sh
      dsimp only
      cases hpick : pickFile ep.files
      · simp
      · rename_i fid
        dsimp only
        cases hkey : env.audioKey ep.id fid
        · simp
        · rename_i key
          dsimp only
          by_cases hopen : env.openOk fid
          · rw [if_pos hopen]
            by_cases hfe : env.fileExists (episodeFname sh ep)
            · rw [if_pos hfe]
              simp
            · rw [if_neg hfe]
              cases hrdd : episodeReadDecryptDeliver env helper id ep sh key fid
                (episodeFname sh ep) with
              | mk tr3 o =>
                  dsimp only
                  refine List.mem_append.mpr (Or.inl ?_)
                  simp
          · rw [if_neg hopen]
            simp
  · intro env hp id t tr1 track tr2 artists key fid buf plain album
      hmeta hres hart hpick hkey hopen hfe hread hdec halb hsp hpw hwait hlen
    rw [processTrack_helper_success env hp id t tr1 track tr2 artists key fid buf plain
      album hmeta hres hart hpick hkey hopen hfe hread hdec halb hsp hpw hwait hlen]
    simp

/-- An environment with album 7 ("Al") containing the single track 1. -/
def envC6 : Env :=
  { emptyEnv with albumMeta := fun a => if a = 7 then some ⟨"Al", [1]⟩ else none }

/-- Counterexample to claim C6 as stated: album expansion stores the
kind string "track", not the album name "Al", and there is no context
field at all in the worklist entry. -/
theorem claim_C6_counterexample : ¬ ContextCarriedStated := by
  intro h
  have h1 := h.1 envC6 [] 7 ⟨"Al", [1]⟩ [Effect.fetchAlbum 7] [(1, "track")]
    rfl rfl 1 (by decide)
  exact absurd h1 (by decide)

/-- Witness: the value stored by album expansion is "track", and the
fetched episode's processing does fetch the show. -/
theorem claim_C6_witness :
    lookupW [(1, "track")] 1 = some "track" ∧
      Effect.fetchShow 5 ∈ (processEpisode envC7 none 1).1 :=
  ⟨claim_C6_amended.1 envC6 [] 7 ⟨"Al", [1]⟩ [Effect.fetchAlbum 7] [(1, "track")]
      rfl rfl 1 (by decide),
    claim_C6_amended.2.1 envC7 none 1 ⟨1, "E", true, [(FileFormat.OGG_VORBIS_320, 10)], 5⟩ rfl⟩

instance {α β : Type} [DecidableEq α] [DecidableEq β] : DecidableEq (Except α β) :=
  fun a b =>
    match a, b with
    | Except.ok x, Except.ok y =>
        if h : x = y then isTrue (by rw [h])
        else isFalse (fun hh => h (by injection hh))
    | Except.error x, Except.error y =>
        if h : x = y then isTrue (by rw [h])
        else isFalse (fun hh => h (by injection hh))
    | Except.ok _, Except.error _ => isFalse (fun hh => by cases hh)
    | Except.error _, Except.ok _ => isFalse (fun hh => by cases hh)

theorem firstOcc_of_nodup (l : List Nat) (h : l.Nodup) : firstOcc l = l := by
  induction l with
  | nil => rfl
  | cons x xs ih =>
      rcases List.nodup_cons.mp h with ⟨hx, hxs⟩
      unfold firstOcc
      rw [ih hxs]
      congr 1
      apply List.filter_eq_self.mpr
      intro y hy
      simp only [decide_eq_true_eq]
      intro hyx
      exact hx (hyx ▸ hy)

/-- Claim C5 as stated: show expansion inserts the episode ids into
the worklist in exactly the reverse of the catalog order. -/
def ShowReverseStated : Prop :=
  ∀ (env : Env) (ids : WorkList) (sid : Nat) (sh : ShowMeta),
    env.showMeta sid = some sh →
    expandRef env ids "show" sid =
      ([Effect.fetchShow sid],
        Except.ok (sh.episodes.reverse.foldl
          (fun m e => indexInsert m e "episode") ids))

/-- Claim C5 (amended): show expansion first collapses the catalog's
episode list to its first occurrences (via the fresh insertion-ordered
map), then reverses once and inserts; when the catalog list has no
duplicate ids this is exactly the reversal of the catalog order. -/
theorem claim_C5_amended :
    ∀ (env : Env) (ids : WorkList) (sid : Nat) (sh : ShowMeta),
      env.showMeta sid = some sh →
      expandRef env ids "show" sid =
        ([Effect.fetchShow sid],
          Except.ok ((firstOcc sh.episodes).reverse.foldl
            (fun m e => indexInsert m e "episode") ids)) ∧
      (sh.episodes.Nodup →
        expandRef env ids "show" sid =
          ([Effect.fetchShow sid],
            Except.ok (sh.episodes.reverse.foldl
              (fun m e => indexInsert m e "episode") ids))) := by
  intro env ids sid sh hsh
  have key : (sh.episodes.foldl (fun m e => indexInsert m e "episode") []).reverse.foldl
      (fun m p => indexInsert m p.1 p.2) ids =
      (firstOcc sh.episodes).reverse.foldl (fun m e => indexInsert m e "episode") ids := by
    rw [foldl_const_insert, ← List.map_reverse, List.foldl_map]
  have hexp : expandRef env ids "show" sid =
      ([Effect.fetchShow sid],
        Except.ok ((firstOcc sh.episodes).reverse.foldl
          (fun m e => indexInsert m e "episode") ids)) := by
    unfold expandRef
    rw [if_neg (by decide), if_neg (by decide), if_pos rfl, hsh]
    dsimp only
    rw [key]
  refine ⟨hexp, ?_⟩
  intro hnd
  rw [hexp, firstOcc_of_nodup sh.episodes hnd]

/-- Show 5 whose catalog episode list [1, 2, 1] repeats episode 1. -/
def envC5 : Env :=
  { emptyEnv with showMeta := fun s => if s = 5 then some ⟨"Pod", "Pub", [1, 2, 1]⟩ else none }

/-- Counterexample to claim C5 as stated: with catalog order [1, 2, 1]
the engine inserts [2, 1] (dedup first, then reverse), while inserting
in exactly reversed catalog order would produce the worklist [1, 2]. -/
theorem claim_C5_counterexample : ¬ ShowReverseStated := by
  intro h
  have h1 := h envC5 [] 5 ⟨"Pod", "Pub", [1, 2, 1]⟩ rfl
  exact absurd h1 (by decide)

/-- Witness: the amended equations evaluated on the duplicate-bearing
show of envC5 and on the duplicate-free show of envC7. -/
theorem claim_C5_witness :
    expandRef envC5 [] "show" 5 =
      ([Effect.fetchShow 5],
        Except.ok ((firstOcc [1, 2, 1]).reverse.foldl
          (fun m e => indexInsert m e "episode") [])) ∧
    expandRef envC7 [] "show" 5 =
      ([Effect.fetchShow 5],
        Except.ok (([1] : List Nat).reverse.foldl
          (fun m e => indexInsert m e "episode") [])) :=
  ⟨(claim_C5_amended envC5 [] 5 ⟨"Pod", "Pub", [1, 2, 1]⟩ rfl).1,
    (claim_C5_amended envC7 [] 5 ⟨"Pod", "Pub", [1]⟩ rfl).2 (by decide)⟩

/-- Claim C3: for every input reference sequence the worklist's item
order is the first-occurrence order of the expanded leaf insertions,
each id appears at most once, and inserting an already-present id
updates its stored value without moving its position. -/
theorem claim_C3_worklist_order :
    (∀ (env : Env) (refs : List (String × Nat)) (tr : Trace) (wl : WorkList),
      expandAll env refs [] = (tr, Except.ok wl) →
      keysW wl = firstOcc ((allOps env refs).map Prod.fst) ∧ (keysW wl).Nodup) ∧
    (∀ (m : WorkList) (k : Nat) (v : String), k ∈ keysW m →
      keysW (indexInsert m k v) = keysW m ∧
      lookupW (indexInsert m k v) k = some v) := by
  constructor
  · intro env refs tr wl h
    have hwl := expandAll_ok env refs [] tr wl h
    subst hwl
    rw [keysW_foldl_nil]
    exact ⟨rfl, firstOcc_nodup _⟩
  · intro m k v hk
    refine ⟨?_, lookupW_indexInsert_self m k v⟩
    rw [keysW_indexInsert, if_pos hk]

/-- Album 7 whose track list [1, 2, 1] repeats track 1. -/
def envC3 : Env :=
  { emptyEnv with albumMeta := fun a => if a = 7 then some ⟨"Al", [1, 2, 1]⟩ else none }

/-- Witness: expanding album 7 of envC3 yields the worklist
[1, 2] in first-occurrence order, with no duplicate; and re-inserting
key 1 into a two-entry list keeps the order and updates the value. -/
theorem claim_C3_witness :
    (keysW [(1, "track"), (2, "track")] =
      firstOcc ((allOps envC3 [("album", 7)]).map Prod.fst) ∧
      (keysW [(1, "track"), (2, "track")]).Nodup) ∧
    (keysW (indexInsert [(1, "a"), (2, "b")] 1 "z") = keysW [(1, "a"), (2, "b")] ∧
      lookupW (indexInsert [(1, "a"), (2, "b")] 1 "z") 1 = some "z") :=
  ⟨claim_C3_worklist_order.1 envC3 [("album", 7)] [Effect.fetchAlbum 7]
      [(1, "track"), (2, "track")] rfl,
    claim_C3_worklist_order.2 [(1, "a"), (2, "b")] 1 "z" (by decide)⟩

theorem processTrack_not_sfe (env : Env) (helper : Option String) (id : Nat)
    (t0 : TrackMeta) (hm : env.trackMeta id = some t0) :
    (processTrack env helper id).2 ≠ Outcome.skippedFetchError := by
  unfold processTrack
  rw [hm]
  dsimp only
  cases hres : resolveTrack env id t0 with
  | mk tr1 r1 =>
      cases r1 with
      | error e => simp
      | ok track =>
          dsimp only
          cases hart : fetchArtists env track.artists with
          | mk tr2 r2 =>
              cases r2 with
              | error e => simp
              | ok artists =>
                  dsimp only
                  cases hpick : pickFile track.files with
                  | none => simp
                  | some fid =>
                      dsimp only
                      cases hkey : env.audioKey track.id fid with
                      | none => simp
                      | some key =>
                          dsimp only
                          by_cases hopen : env.openOk fid
                          · rw [if_pos hopen]
                            by_cases hfe : env.fileExists (trackFname env artists track.name)
                            · rw [if_pos hfe]
                              simp
                            · rw [if_neg hfe]
                              cases hrdd : trackReadDecryptDeliver env helper id track artists key fid with
                              | mk tr3 o =>
                                  have ho := trackRDD_outcome env helper id track artists key fid
                                  rw [hrdd] at ho
                                  dsimp only at ho ⊢
                                  rcases ho with h | h | ⟨m, h⟩ <;> rw [h] <;> simp
                          · rw [if_neg hopen]
                            simp

theorem processEpisode_not_sfe (env : Env) (helper : Option String) (id : Nat)
    (ep : EpisodeMeta) (hm : env.episodeMeta id = some ep) :
    (processEpisode env helper id).2 ≠ Outcome.skippedFetchError := by
  unfold processEpisode
  rw [hm]
  dsimp only
  cases hsh : env.showMeta ep.showId with
  | none => simp
  | some sh =>
      dsimp only
      cases hpick : pickFile ep.files with
      | none => simp
      | some fid =>
          dsimp only
          cases hkey : env.audioKey ep.id fid with
          | none => simp
          | some key =>
              dsimp only
              by_cases hopen : env.openOk fid
              · rw [if_pos hopen]
                by_cases hfe : env.fileExists (episodeFname sh ep)
                · rw [if_pos hfe]
                  simp
                · rw [if_neg hfe]
                  cases hrdd : episodeReadDecryptDeliver env helper id ep sh key fid
                    (episodeFname sh ep) with
                  | mk tr3 o =>
                      have ho := episodeRDD_outcome env helper id ep sh key fid (episodeFname sh ep)
                      rw [hrdd] at ho
                      dsimp only at ho ⊢
                      rcases ho with h | h | ⟨m, h⟩ <;> rw [h] <;> simp
              · rw [if_neg hopen]
                simp

theorem runItems_fatal (env : Env) (helper : Option String) (id : Nat) (kind : String)
    (rest : List (Nat × String)) (tr : Trace) (msg : String)
    (h : processItem env helper id kind = (tr, Outcome.fatal msg)) :
    runItems env helper ((id, kind) :: rest) = (tr, some msg) := by
  unfold runItems
  rw [h]

theorem runItems_continue (env : Env) (helper : Option String) (id : Nat) (kind : String)
    (rest : List (Nat × String)) (tr : Trace) (o : Outcome)
    (h : processItem env helper id kind = (tr, o))
    (ho : ∀ m, o ≠ Outcome.fatal m) :
    runItems env helper ((id, kind) :: rest) =
      (tr ++ (runItems env helper rest).1, (runItems env helper rest).2) := by
  simp only [runItems]
  rw [h]
  cases o with
  | fatal m => exact absurd rfl (ho m)
  | delivered =>
      cases hr : runItems env helper rest with
      | mk tr2 r => rfl
  | skippedExists =>
      cases hr : runItems env helper rest with
      | mk tr2 r => rfl
  | skippedFetchError =>
      cases hr : runItems env helper rest with
      | mk tr2 r => rfl
  | unknownKind =>
      cases hr : runItems env helper rest with
      | mk tr2 r => rfl

theorem processItem_sfe_iff (env : Env) (helper : Option String) (id : Nat)
    (kind : String) :
    (processItem env helper id kind).2 = Outcome.skippedFetchError ↔
      (kind = "track" ∧ env.trackMeta id = none) ∨
      (kind = "episode" ∧ env.episodeMeta id = none) := by
  unfold processItem
  by_cases hk : kind = "track"
  · rw [if_pos hk]
    constructor
    · intro h
      cases hm : env.trackMeta id with
      | none => exact Or.inl ⟨hk, rfl⟩
      | some t0 => exact absurd h (processTrack_not_sfe env helper id t0 hm)
    · intro h
      rcases h with ⟨_, hm⟩ | ⟨hk2, _⟩
      · unfold processTrack
        rw [hm]
      · rw [hk] at hk2
        exact absurd hk2 (by decide)
  · rw [if_neg hk]
    by_cases hk2 : kind = "episode"
    · rw [if_pos hk2]
      constructor
      · intro h
        cases hm : env.episodeMeta id with
        | none => exact Or.inr ⟨hk2, rfl⟩
        | some ep => exact absurd h (processEpisode_not_sfe env helper id ep hm)
      · intro h
        rcases h with ⟨hk3, _⟩ | ⟨_, hm⟩
        · exact absurd hk3 hk
        · unfold processEpisode
          rw [hm]
    · rw [if_neg hk2]
      constructor
      · intro h
        cases h
      · intro h
        rcases h with ⟨hk3, _⟩ | ⟨hk3, _⟩
        · exact absurd hk3 hk
        · exact absurd hk3 hk2

/-- Claim C8 as stated: an item's own metadata fetch failure is
logged (a warning appears), only that item is skipped and the run
continues; a fatal outcome anywhere stops the whole run; and the
skipped-fetch outcome arises exactly from the item's own metadata
fetch failing. -/
def RecoverableFetchStated : Prop :=
  (∀ (env : Env) (helper : Option String) (id : Nat) (rest : List (Nat × String)),
    env.trackMeta id = none →
    (∃ m, Effect.logWarn m ∈ (processTrack env helper id).1) ∧
    runItems env helper ((id, "track") :: rest) =
      ((processTrack env helper id).1 ++ (runItems env helper rest).1,
        (runItems env helper rest).2)) ∧
  (∀ (env : Env) (helper : Option String) (id : Nat) (rest : List (Nat × String)),
    env.episodeMeta id = none →
    (∃ m, Effect.logWarn m ∈ (processEpisode env helper id).1) ∧
    runItems env helper ((id, "episode") :: rest) =
      ((processEpisode env helper id).1 ++ (runItems env helper rest).1,
        (runItems env helper rest).2)) ∧
  (∀ (env : Env) (helper : Option String) (id : Nat) (kind : String)
      (rest : List (Nat × String)) (tr : Trace) (msg : String),
    processItem env helper id kind = (tr, Outcome.fatal msg) →
    runItems env helper ((id, kind) :: rest) = (tr, some msg)) ∧
  (∀ (env : Env) (helper : Option String) (id : Nat) (kind : String),
    (processItem env helper id kind).2 = Outcome.skippedFetchError ↔
      (kind = "track" ∧ env.trackMeta id = none) ∨
      (kind = "episode" ∧ env.episodeMeta id = none))

/-- Claim C8 (amended): a failed metadata fetch skips only that item
and the run continues, but nothing is logged about the failure - the
item's whole trace is just the "Getting ..." info line and the failed
fetch; every fatal outcome (all other failures) stops the run at that
item; and skipped-fetch arises exactly from the item's own metadata
fetch failing. -/
theorem claim_C8_amended :
    (∀ (env : Env) (helper : Option String) (id : Nat) (rest : List (Nat × String)),
      env.trackMeta id = none →
      processTrack env helper id =
        ([Effect.logInfo ("Getting track " ++ env.toBase62 id ++ "..."),
          Effect.fetchTrack id], Outcome.skippedFetchError) ∧
      runItems env helper ((id, "track") :: rest) =
        ((processTrack env helper id).1 ++ (runItems env helper rest).1,
          (runItems env helper rest).2)) ∧
    (∀ (env : Env) (helper : Option String) (id : Nat) (rest : List (Nat × String)),
      env.episodeMeta id = none →
      processEpisode env helper id =
        ([Effect.logInfo ("Getting episode " ++ env.toBase62 id ++ "..."),
          Effect.fetchEpisode id], Outcome.skippedFetchError) ∧
      runItems env helper ((id, "episode") :: rest) =
        ((processEpisode env helper id).1 ++ (runItems env helper rest).1,
          (runItems env helper rest).2)) ∧
    (∀ (env : Env) (helper : Option String) (id : Nat) (kind : String)
        (rest : List (Nat × String)) (tr : Trace) (msg : String),
      processItem env helper id kind = (tr, Outcome.fatal msg) →
      runItems env helper ((id, kind) :: rest) = (tr, some msg)) ∧
    (∀ (env : Env) (helper : Option String) (id : Nat) (kind : String),
      (processItem env helper id kind).2 = Outcome.skippedFetchError ↔
        (kind = "track" ∧ env.trackMeta id = none) ∨
        (kind = "episode" ∧ env.episodeMeta id = none)) := by
  refine ⟨?_, ?_, runItems_fatal, processItem_sfe_iff⟩
  · intro env helper id rest hm
    have hpt : processTrack env helper id =
        ([Effect.logInfo ("Getting track " ++ env.toBase62 id ++ "..."),
          Effect.fetchTrack id], Outcome.skippedFetchError) := by
      unfold processTrack
      rw [hm]
    refine ⟨hpt, ?_⟩
    refine runItems_continue env helper id "track" rest
      (processTrack env helper id).1 Outcome.skippedFetchError ?_ ?_
    · unfold processItem
      rw [if_pos rfl, hpt]
    · intro m h
      cases h
  · intro env helper id rest hm
    have hpe : processEpisode env helper id =
        ([Effect.logInfo ("Getting episode " ++ env.toBase62 id ++ "..."),
          Effect.fetchEpisode id], Outcome.skippedFetchError) := by
      unfold processEpisode
      rw [hm]
    refine ⟨hpe, ?_⟩
    refine runItems_continue env helper id "episode" rest
      (processEpisode env helper id).1 Outcome.skippedFetchError ?_ ?_
    · unfold processItem
      rw [if_neg (by decide), if_pos rfl, hpe]
    · intro m h
      cases h

/-- Counterexample to claim C8 as stated: in the empty environment the
failed fetch of track 1 emits no warning at all - the trace is only
the "Getting track 1..." info line and the failed fetch request. -/
theorem claim_C8_counterexample : ¬ RecoverableFetchStated := by
  intro h
  obtain ⟨m, hm⟩ := (h.1 emptyEnv none 1 [] rfl).1
  simp [processTrack, emptyEnv] at hm

/-- Witness: the silent skip and the continuation of the run on the
concrete empty environment, and the fatal stop on envC6 (album-only
environment) where processing track 1 panics on the alternatives
search... here simply: a fatal item stops the run. -/
theorem claim_C8_witness :
    processTrack emptyEnv none 1 =
      ([Effect.logInfo ("Getting track " ++ emptyEnv.toBase62 1 ++ "..."),
        Effect.fetchTrack 1], Outcome.skippedFetchError) ∧
    runItems emptyEnv none [(1, "track")] =
      ((processTrack emptyEnv none 1).1 ++ (runItems emptyEnv none []).1,
        (runItems emptyEnv none []).2) ∧
    ((processItem emptyEnv none 1 "track").2 = Outcome.skippedFetchError ↔
      ("track" = "track" ∧ emptyEnv.trackMeta 1 = none) ∨
      ("track" = "episode" ∧ emptyEnv.episodeMeta 1 = none)) :=
  ⟨(claim_C8_amended.1 emptyEnv none 1 [] rfl).1,
    (claim_C8_amended.1 emptyEnv none 1 [] rfl).2,
    claim_C8_amended.2.2.2 emptyEnv none 1 "track"⟩

theorem captureAt_nil : captureAt [] = none := rfl

theorem isPrefixOf_cons_false (a b : Char) (as bs : List Char) (h : (a == b) = false) :
    List.isPrefixOf (a :: as) (b :: bs) = false := by
  show (a == b && List.isPrefixOf as bs) = false
  rw [h, Bool.false_and]

theorem isPrefixOf_append_self (l r : List Char) : List.isPrefixOf l (l ++ r) = true := by
  induction l with
  | nil => simp [List.isPrefixOf]
  | cons a as ih =>
      show (a == a && List.isPrefixOf as (as ++ r)) = true
      rw [ih, Bool.and_true]
      simp

/-- The alternation picks the matched kind word: the five words have
pairwise distinct first letters, so the word that the text starts with
is the one the alternation finds. -/
theorem findKind_of_mem (k : String) (rest : List Char) (hk : k ∈ kindWords) :
    kindWords.findSome?
      (fun k2 => if k2.toList.isPrefixOf (k.toList ++ rest) then some k2 else none) =
      some k := by
  have hself := isPrefixOf_append_self k.toList rest
  simp only [kindWords, List.mem_cons, List.not_mem_nil, or_false] at hk
  rcases hk with rfl | rfl | rfl | rfl | rfl
  · simp [kindWords, List.findSome?_cons, hself]
  · have h1 : ("playlist".toList).isPrefixOf ("track".toList ++ rest) = false :=
      isPrefixOf_cons_false 'p' 't' _ _ (by decide)
    simp [kindWords, List.findSome?_cons, h1, hself]
  · have h1 : ("playlist".toList).isPrefixOf ("album".toList ++ rest) = false :=
      isPrefixOf_cons_false 'p' 'a' _ _ (by decide)
    have h2 : ("track".toList).isPrefixOf ("album".toList ++ rest) = false :=
      isPrefixOf_cons_false 't' 'a' _ _ (by decide)
    simp [kindWords, List.findSome?_cons, h1, h2, hself]
  · have h1 : ("playlist".toList).isPrefixOf ("episode".toList ++ rest) = false :=
      isPrefixOf_cons_false 'p' 'e' _ _ (by decide)
    have h2 : ("track".toList).isPrefixOf ("episode".toList ++ rest) = false :=
      isPrefixOf_cons_false 't' 'e' _ _ (by decide)
    have h3 : ("album".toList).isPrefixOf ("episode".toList ++ rest) = false :=
      isPrefixOf_cons_false 'a' 'e' _ _ (by decide)
    simp [kindWords, List.findSome?_cons, h1, h2, h3, hself]
  · have h1 : ("playlist".toList).isPrefixOf ("show".toList ++ rest) = false :=
      isPrefixOf_cons_false 'p' 's' _ _ (by decide)
    have h2 : ("track".toList).isPrefixOf ("show".toList ++ rest) = false :=
      isPrefixOf_cons_false 't' 's' _ _ (by decide)
    have h3 : ("album".toList).isPrefixOf ("show".toList ++ rest) = false :=
      isPrefixOf_cons_false 'a' 's' _ _ (by decide)
    have h4 : ("episode".toList).isPrefixOf ("show".toList ++ rest) = false :=
      isPrefixOf_cons_false 'e' 's' _ _ (by decide)
    simp [kindWords, List.findSome?_cons, h1, h2, h3, h4, hself]

theorem head?_dropWhile_false (p : Char → Bool) (l : List Char) (c : Char)
    (h : (l.dropWhile p).head? = some c) : p c = false := by
  have h2 := List.head?_dropWhile_not p l
  rw [h] at h2
  exact h2

theorem takeWhile_append_of (p : Char → Bool) (w suf : List Char)
    (hw : ∀ c ∈ w, p c = true)
    (hsuf : ∀ c, suf.head? = some c → p c = false) :
    (w ++ suf).takeWhile p = w := by
  induction w with
  | nil =>
      simp only [List.nil_append]
      cases suf with
      | nil => rfl
      | cons c cs =>
          rw [List.takeWhile_cons,
            if_neg (by rw [hsuf c rfl]; exact Bool.false_ne_true)]
  | cons a as ih =>
      rw [List.cons_append, List.takeWhile_cons,
        if_pos (hw a (List.mem_cons_self a as)),
        ih (fun c hc => hw c (List.mem_cons_of_mem a hc))]

/-- Completeness of one anchored match: a text of the declarative
shape is captured, with the maximal run as the id. -/
theorem captureAt_complete (k : String) (sep : Char) (w suf : List Char)
    (hk : k ∈ kindWords) (hsep : isSepChar sep = true) (hw : w ≠ [])
    (halnum : ∀ c ∈ w, c.isAlphanum = true)
    (hsuf : ∀ c, suf.head? = some c → c.isAlphanum = false) :
    captureAt (k.toList ++ sep :: (w ++ suf)) = some (k, w.asString) := by
  unfold captureAt
  rw [findKind_of_mem k (sep :: (w ++ suf)) hk]
  dsimp only
  rw [List.drop_left]
  dsimp only
  rw [if_pos hsep, takeWhile_append_of Char.isAlphanum w suf halnum hsuf, if_neg hw]

/-- Soundness of one anchored match: a successful capture exhibits the
declarative shape, and the id is the maximal run. -/
theorem captureAt_sound (s : List Char) (k idStr : String)
    (h : captureAt s = some (k, idStr)) :
    ∃ w, CaptureShape s k w ∧ idStr = w.asString := by
  unfold captureAt at h
  cases hfk : kindWords.findSome?
      (fun k2 => if k2.toList.isPrefixOf s then some k2 else none) with
  | none => rw [hfk] at h; cases h
  | some k2 =>
      rw [hfk] at h
      dsimp only at h
      obtain ⟨l1, a, l2, hsplit, hfa, -⟩ := List.findSome?_eq_some_iff.mp hfk
      have hak : a = k2 ∧ a.toList.isPrefixOf s = true := by
        by_cases hpre : a.toList.isPrefixOf s
        · rw [if_pos hpre] at hfa
          injection hfa with hfa
          exact ⟨hfa, hpre⟩
        · rw [if_neg hpre] at hfa
          cases hfa
      obtain ⟨rfl, hpre2⟩ := hak
      have hk2 : a ∈ kindWords := by
        rw [hsplit]
        exact List.mem_append.mpr (Or.inr (List.mem_cons_self a l2))
      have hpref : a.toList <+: s := List.isPrefixOf_iff_prefix.mp hpre2
      have hs : a.toList ++ s.drop a.toList.length = s := List.prefix_iff_eq_append.mp hpref
      cases hdrop : s.drop a.toList.length with
      | nil => rw [hdrop] at h; cases h
      | cons c rest =>
          rw [hdrop] at h hs
          dsimp only at h
          by_cases hsep : isSepChar c
          · rw [if_pos hsep] at h
            by_cases hrun : (rest.takeWhile Char.isAlphanum) = []
            · rw [if_pos hrun] at h
              cases h
            · rw [if_neg hrun] at h
              injection h with h
              rw [Prod.mk.injEq] at h
              obtain ⟨hA, hB⟩ := h
              subst hA
              refine ⟨rest.takeWhile Char.isAlphanum,
                ⟨hk2, hrun, ?_, c, rest.dropWhile Char.isAlphanum, hsep, ?_, ?_⟩, hB.symm⟩
              · intro ch hch
                exact List.mem_takeWhile_imp hch
              · rw [List.takeWhile_append_dropWhile]
                exact hs.symm
              · intro ch hch
                exact head?_dropWhile_false _ _ _ hch
          · rw [if_neg hsep] at h
            cases h

/-- findCapture finds exactly the leftmost anchored match. -/
theorem findCapture_eq_some (s : List Char) (r : String × String) :
    findCapture s = some r ↔
      ∃ i, captureAt (s.drop i) = some r ∧ ∀ j, j < i → captureAt (s.drop j) = none := by
  induction s with
  | nil =>
      simp only [findCapture]
      constructor
      · intro h
        cases h
      · intro ⟨i, hi, _⟩
        rw [List.drop_nil] at hi
        rw [captureAt_nil] at hi
        cases hi
  | cons c rest ih =>
      unfold findCapture
      cases hc : captureAt (c :: rest) with
      | some r2 =>
          constructor
          · intro h
            injection h with h
            subst h
            exact ⟨0, hc, by omega⟩
          · intro ⟨i, hi, hmin⟩
            cases i with
            | zero =>
                rw [List.drop_zero] at hi
                rw [hc] at hi
                exact hi
            | succ i2 =>
                have := hmin 0 (Nat.succ_pos i2)
                rw [List.drop_zero, hc] at this
                cases this
      | none =>
          rw [ih]
          constructor
          · intro ⟨i, hi, hmin⟩
            refine ⟨i + 1, hi, ?_⟩
            intro j hj
            cases j with
            | zero => exact hc
            | succ j2 => exact hmin j2 (by omega)
          · intro ⟨i, hi, hmin⟩
            cases i with
            | zero =>
                rw [List.drop_zero, hc] at hi
                cases hi
            | succ i2 =>
                exact ⟨i2, hi, fun j hj => hmin (j + 1) (by omega)⟩

theorem findCapture_eq_none (s : List Char) :
    findCapture s = none ↔ ∀ i, captureAt (s.drop i) = none := by
  induction s with
  | nil =>
      simp only [findCapture]
      constructor
      · intro _ i
        rw [List.drop_nil, captureAt_nil]
      · intro _
        trivial
  | cons c rest ih =>
      unfold findCapture
      cases hc : captureAt (c :: rest) with
      | some r2 =>
          constructor
          · intro h
            cases h
          · intro h
            have := h 0
            rw [List.drop_zero, hc] at this
            cases this
      | none =>
          rw [ih]
          constructor
          · intro h i
            cases i with
            | zero => rw [List.drop_zero]; exact hc
            | succ i2 => exact h i2
          · intro h i
            exact h (i + 1)

/-- Claim C10: recognition is substring-based. A line yields a
reference exactly when the pattern kind-word, separator, nonempty
alphanumeric run occurs somewhere in the trimmed line; the leftmost
occurrence is used; the captured id is the maximal alphanumeric run
after the separator; and a line with no occurrence yields nothing. -/
theorem claim_C10_reference_recognition :
    ∀ (line : String) (k idStr : String),
      (lineRef line = some (k, idStr) ↔
        ∃ i w, OccursAt (trimChars line.toList) i k w ∧ idStr = w.asString ∧
          ∀ j k2 w2, j < i → ¬ OccursAt (trimChars line.toList) j k2 w2) ∧
      (lineRef line = none ↔ ∀ i k2 w2, ¬ OccursAt (trimChars line.toList) i k2 w2) := by
  intro line k idStr
  constructor
  · constructor
    · intro h
      rw [show lineRef line = findCapture (trimChars line.toList) from rfl] at h
      obtain ⟨i, hi, hmin⟩ := (findCapture_eq_some _ _).mp h
      obtain ⟨w, hshape, hid⟩ := captureAt_sound _ _ _ hi
      refine ⟨i, w, hshape, hid, ?_⟩
      intro j k2 w2 hj hOcc
      obtain ⟨hk2, hw2, haln2, sep2, suf2, hsep2, heq2, hsuf2⟩ := hOcc
      have hcomp := captureAt_complete k2 sep2 w2 suf2 hk2 hsep2 hw2 haln2 hsuf2
      rw [← heq2, hmin j hj] at hcomp
      cases hcomp
    · intro ⟨i, w, hOcc, hid, hmin⟩
      obtain ⟨hk2, hw2, haln2, sep2, suf2, hsep2, heq2, hsuf2⟩ := hOcc
      rw [show lineRef line = findCapture (trimChars line.toList) from rfl]
      apply (findCapture_eq_some _ _).mpr
      refine ⟨i, ?_, ?_⟩
      · rw [heq2, hid]
        exact captureAt_complete k sep2 w suf2 hk2 hsep2 hw2 haln2 hsuf2
      · intro j hj
        cases hcj : captureAt ((trimChars line.toList).drop j) with
        | none => rfl
        | some r2 =>
            obtain ⟨w2, hshape2, _⟩ := captureAt_sound _ r2.1 r2.2 (by rw [hcj])
            exact absurd hshape2 (hmin j r2.1 w2 hj)
  · constructor
    · intro h i k2 w2 hOcc
      rw [show lineRef line = findCapture (trimChars line.toList) from rfl] at h
      have hall := (findCapture_eq_none _).mp h
      obtain ⟨hk2, hw2, haln2, sep2, suf2, hsep2, heq2, hsuf2⟩ := hOcc
      have hcomp := captureAt_complete k2 sep2 w2 suf2 hk2 hsep2 hw2 haln2 hsuf2
      rw [← heq2, hall i] at hcomp
      cases hcomp
    · intro h
      rw [show lineRef line = findCapture (trimChars line.toList) from rfl]
      apply (findCapture_eq_none _).mpr
      intro i
      cases hci : captureAt ((trimChars line.toList).drop i) with
      | none => rfl
      | some r2 =>
          obtain ⟨w2, hshape2, _⟩ := captureAt_sound _ r2.1 r2.2 (by rw [hci])
          exact absurd hshape2 (h i r2.1 w2)

/-- Witness: a full URL-like line containing track:abc9 is recognized,
the leftmost occurrence is used and the id is the maximal run. -/
theorem claim_C10_witness :
    ∃ i w, OccursAt (trimChars "see track:abc9 now".toList) i "track" w ∧
      "abc9" = w.asString ∧
      ∀ j k2 w2, j < i → ¬ OccursAt (trimChars "see track:abc9 now".toList) j k2 w2 :=
  ((claim_C10_reference_recognition "see track:abc9 now" "track" "abc9").1).mp (by decide)

end Oggify
